import Mathlib

/-!
Verification of the bungie_client package (an async Bungie API binding):
a shallow embedding of src/bungie_client/utils.py, client.py and
exceptions.py, together with theorems about the envelope interpreter,
the URL joining helper, the request gateway and its error taxonomy.

Strings are embedded as Lean String (UTF-8 code points, matching Python
str for the character sets exercised here); the URL-joining development
works on List Char, the underlying data of String.  Wall-clock times
are embedded as rationals (Python time.time floats, taken exact).
-/

namespace DestinyAudit

/-- JSON values as decoded by json.loads.  Numbers are modelled as
integers: the envelope fields this client inspects (ErrorCode) are
integral, and no claim concerns non-integral numbers. -/
inductive JSONValue where
  | null : JSONValue
  | bool (b : Bool) : JSONValue
  | num (n : Int) : JSONValue
  | str (s : String) : JSONValue
  | arr (elems : List JSONValue) : JSONValue
  | obj (fields : List (String × JSONValue)) : JSONValue

/-- A decoded JSON object (a Python dict), as an association list.
Python dicts have unique keys; lookup takes the first match. -/
abbrev Envelope := List (String × JSONValue)

/-- Python dict.get with no default: first value bound to the key,
none when the key is absent. -/
def pyGet (d : Envelope) (k : String) : Option JSONValue :=
  (d.find? (fun p => p.fst == k)).map Prod.snd

/-- Python truth value of a decoded JSON value: None, False, 0, empty
string, empty list and empty dict are falsy, everything else truthy. -/
def pyTruthy : JSONValue → Bool
  | .null => false
  | .bool b => b
  | .num n => n != 0
  | .str s => s != ""
  | .arr elems => !elems.isEmpty
  | .obj fields => !fields.isEmpty

/-- Python truth value of an optional value (dict.get result):
None is falsy. -/
def pyTruthyOpt : Option JSONValue → Bool
  | none => false
  | some v => pyTruthy v

/-- Python equality test v == 1 for a decoded JSON value: true for the
integer 1 and for True (in Python, True == 1). -/
def pyEqOne : JSONValue → Bool
  | .num n => n == 1
  | .bool b => b
  | _ => false

/-- Python equality test for an optional value against 1: None is not
equal to 1. -/
def pyEqOneOpt : Option JSONValue → Bool
  | none => false
  | some v => pyEqOne v

/-- The single-quote character, written by code point to keep quote
characters out of the source text. -/
def sqChar : Char := Char.ofNat 39

/-- The double-quote character, by code point. -/
def dqChar : Char := Char.ofNat 34

/-- Lower-case hex digit for a nibble. -/
def hexDigit (n : Nat) : Char :=
  if n < 10 then Char.ofNat (48 + n) else Char.ofNat (87 + n)

/-- Escape of one character inside a Python string repr using the given
quote character: backslash, the quote, tab, newline and carriage return
get two-character escapes, other control characters get a hex escape,
everything else stands for itself. -/
def pyEscChar (quote : Char) (c : Char) : List Char :=
  if c = '\\' then ['\\', '\\']
  else if c = quote then ['\\', quote]
  else if c = Char.ofNat 9 then ['\\', 't']
  else if c = Char.ofNat 10 then ['\\', 'n']
  else if c = Char.ofNat 13 then ['\\', 'r']
  else if c.toNat < 32 || c.toNat == 127 then
    ['\\', 'x', hexDigit (c.toNat / 16), hexDigit (c.toNat % 16)]
  else [c]

/-- Python repr of a string: single-quoted, except double-quoted when
the string contains a single quote and no double quote. -/
def pyReprStr (s : String) : String :=
  let q : Char :=
    if s.data.contains sqChar && !s.data.contains dqChar then dqChar else sqChar
  String.mk (q :: s.data.flatMap (pyEscChar q) ++ [q])

mutual

/-- Python repr of a decoded JSON value. -/
def pyRepr : JSONValue → String
  | .null => "None"
  | .bool b => if b then "True" else "False"
  | .num n => toString n
  | .str s => pyReprStr s
  | .arr elems => "[" ++ String.intercalate ", " (pyReprElems elems) ++ "]"
  | .obj fields => "\x7b" ++ String.intercalate ", " (pyReprFields fields) ++ "\x7d"

/-- Reprs of the elements of a decoded JSON list. -/
def pyReprElems : List JSONValue → List String
  | [] => []
  | v :: rest => pyRepr v :: pyReprElems rest

/-- Reprs of the key: value entries of a decoded JSON object. -/
def pyReprFields : List (String × JSONValue) → List String
  | [] => []
  | (k, v) :: rest => (pyReprStr k ++ ": " ++ pyRepr v) :: pyReprFields rest

end

/-- Python str of a decoded JSON value, as interpolated by an f-string:
strings stand for themselves, other values use str which agrees with
repr for numbers, booleans, None, lists and dicts. -/
def pyStrOf : JSONValue → String
  | .str s => s
  | v => pyRepr v

/-- Exception classes of src/bungie_client/exceptions.py:
BungieAPIException and its two subclasses BungieRateLimitException and
BungieMaintenanceException. -/
inductive ExcClass where
  | generic : ExcClass
  | rateLimit : ExcClass
  | maintenance : ExcClass
deriving DecidableEq

/-- The raw diagnostic object attached to a raised exception: either an
httpx response (status, headers, decoded JSON body) or the decoded
envelope dict. -/
inductive RawAttachment where
  | httpResponse (status : Nat) (headers : List (String × String)) (body : Envelope)
  | envelope (fields : Envelope)

/-- A raised BungieAPIException (or subclass), per exceptions.py:
message, optional error_code, optional raw response, and the concrete
exception class. -/
structure BungieExc where
  cls : ExcClass
  message : String
  error_code : Option JSONValue
  response : Option RawAttachment

/-- Embedding of handle_bungie_response (src/bungie_client/utils.py
lines 11 to 24): raise BungieAPIException when the Response field is
falsy or absent and ErrorCode is not equal to 1, with the message
"ErrorStatus: Message" built from defaults, otherwise return the
Response value when the key is present, else the whole dict. -/
def handle_bungie_response (response_data : Envelope) : Except BungieExc JSONValue :=
  if !pyTruthyOpt (pyGet response_data "Response") &&
      !pyEqOneOpt (pyGet response_data "ErrorCode") then
    let error_status := (pyGet response_data "ErrorStatus").getD (.str "Unknown Error")
    let error_code := (pyGet response_data "ErrorCode").getD (.num 0)
    let message := (pyGet response_data "Message").getD (.str "No error message provided")
    .error
      { cls := .generic
        message := pyStrOf error_status ++ ": " ++ pyStrOf message
        error_code := some error_code
        response := some (.envelope response_data) }
  else
    .ok ((pyGet response_data "Response").getD (.obj response_data))

/-- The error-envelope example of the spec. -/
def demoErrEnv : Envelope :=
  [("ErrorCode", .num 5), ("ErrorStatus", .str "Unauthorized"), ("Message", .str "bad key")]

/-- The exception raised on the error-envelope example. -/
def demoErrExc : BungieExc :=
  { cls := .generic
    message := "Unauthorized: bad key"
    error_code := some (.num 5)
    response := some (.envelope demoErrEnv) }

/-- The success-envelope example of the spec. -/
def demoOkEnv : Envelope :=
  [("Response", .obj [("x", .num 1)]), ("ErrorCode", .num 1)]

/-- The success-envelope example without a Response key. -/
def demoOkEnvNoBody : Envelope := [("ErrorCode", .num 1)]

/-! URL joining.  build_url delegates to urllib.parse.urljoin; the
following is an embedding of CPython urllib/parse.py (urlsplit,
urlparse, urlunsplit, urlunparse, urljoin) on List Char, the data of a
Python str.  Fragments are allowed (the default).  Deviations, marked
below, concern only inputs no theorem depends on. -/

/-- Characters urlsplit removes anywhere in the URL (tab, CR, LF). -/
def unsafeURLChar (c : Char) : Bool :=
  c = Char.ofNat 9 || c = Char.ofNat 13 || c = Char.ofNat 10

/-- WHATWG C0-control-or-space predicate, stripped from the front of
the URL by urlsplit. -/
def c0OrSpace (c : Char) : Bool := c.toNat ≤ 32

/-- Removal of the unsafe URL characters (str.replace with empty
replacement for each of them). -/
def removeUnsafe (l : List Char) : List Char := l.filter (fun c => !unsafeURLChar c)

/-- Python str.lstrip of C0 controls and space. -/
def lstripC0 (l : List Char) : List Char := l.dropWhile c0OrSpace

/-- Python str.rstrip for a single strip character. -/
def pyRstrip (strip : Char) (l : List Char) : List Char :=
  (l.reverse.dropWhile (fun c => c = strip)).reverse

/-- Python str.lstrip for a single strip character. -/
def pyLstrip (strip : Char) (l : List Char) : List Char :=
  l.dropWhile (fun c => c = strip)

/-- Python str.find as an index option (Python returns -1 for none). -/
def pyFindAux (c : Char) : List Char → Option Nat
  | [] => none
  | a :: rest => if a = c then some 0 else (pyFindAux c rest).map Nat.succ

/-- Python str.rfind as an index option. -/
def pyRfind (c : Char) (l : List Char) : Option Nat :=
  (pyFindAux c l.reverse).map (fun i => l.length - 1 - i)

/-- ASCII letter test (url[0].isascii() and url[0].isalpha()). -/
def isAsciiAlpha (c : Char) : Bool :=
  ('a' ≤ c && c ≤ 'z') || ('A' ≤ c && c ≤ 'Z')

/-- ASCII digit test. -/
def isAsciiDigit (c : Char) : Bool := '0' ≤ c && c ≤ '9'

/-- scheme_chars of urllib.parse: letters, digits and plus, minus,
dot. -/
def schemeChar (c : Char) : Bool :=
  isAsciiAlpha c || isAsciiDigit c || c = '+' || c = '-' || c = '.'

/-- Delimiters ending the netloc in _splitnetloc. -/
def netlocDelim (c : Char) : Bool := c = '/' || c = '?' || c = '#'

/-- Python str.split on a single separator character (full split): the
empty string splits to one empty field. -/
def pySplit (sep : Char) : List Char → List (List Char)
  | [] => [[]]
  | a :: rest =>
    match pySplit sep rest with
    | [] => [[]]
    | h :: t => if a = sep then [] :: h :: t else (a :: h) :: t

/-- Python str.split with maxsplit 1: the part before the first
occurrence of the separator and the part after it. -/
def pySplitOnce (sep : Char) (l : List Char) : List Char × List Char :=
  (l.takeWhile (fun c => c ≠ sep), (l.dropWhile (fun c => c ≠ sep)).drop 1)

/-- Result of urlsplit: scheme, netloc, path, query, fragment. -/
structure URLSplitResult where
  scheme : List Char
  netloc : List Char
  path : List Char
  query : List Char
  fragment : List Char

/-- Result of urlparse: urlsplit plus the params component. -/
structure URLParseResult where
  scheme : List Char
  netloc : List Char
  path : List Char
  params : List Char
  query : List Char
  fragment : List Char

/-- uses_relative of urllib.parse (CPython 3.11). -/
def usesRelative : List (List Char) :=
  (["", "ftp", "http", "gopher", "nntp", "imap", "wais", "file", "https",
    "shttp", "mms", "prospero", "rtsp", "rtsps", "rtspu", "sftp", "svn",
    "svn+ssh", "ws", "wss"]).map String.data

/-- uses_netloc of urllib.parse (CPython 3.11). -/
def usesNetloc : List (List Char) :=
  (["", "ftp", "http", "gopher", "nntp", "telnet", "imap", "wais", "file",
    "mms", "https", "shttp", "snews", "prospero", "rtsp", "rtsps", "rtspu",
    "rsync", "svn", "svn+ssh", "sftp", "nfs", "git", "git+ssh", "ws",
    "wss"]).map String.data

/-- uses_params of urllib.parse (CPython 3.11). -/
def usesParams : List (List Char) :=
  (["", "ftp", "hdl", "prospero", "http", "imap", "https", "shttp", "rtsp",
    "rtsps", "rtspu", "sip", "sips", "mms", "sftp", "tel"]).map String.data

/-- The scheme-detection step of urlsplit: a colon at a positive
position preceded by an ASCII letter and scheme characters splits off
the lowercased scheme; otherwise the default scheme is kept. -/
def schemeSplit (url1 : List Char) (defaultScheme : List Char) : List Char × List Char :=
  match pyFindAux ':' url1 with
  | some (i + 1) =>
    if isAsciiAlpha (url1.headD ' ') && (url1.take (i + 1)).all schemeChar then
      ((url1.take (i + 1)).map Char.toLower, url1.drop (i + 2))
    else (defaultScheme, url1)
  | _ => (defaultScheme, url1)

/-- Embedding of urllib.parse.urlsplit with allow_fragments true.  The
scheme argument is the default scheme.  Deviation: for a netloc with
balanced square brackets the library additionally validates the
bracketed host as an IP literal and may raise; that validation is not
modelled, and no theorem below involves bracketed netlocs. -/
def pyUrlsplit (url0 : List Char) (defaultScheme : List Char) :
    Except (List Char) URLSplitResult :=
  let url1 := removeUnsafe (lstripC0 url0)
  let sp := schemeSplit url1 defaultScheme
  let scheme := sp.fst
  let url2 := sp.snd
  if url2.take 2 = ['/', '/'] then
    let rest := url2.drop 2
    let netloc := rest.takeWhile (fun c => !netlocDelim c)
    let url3 := rest.dropWhile (fun c => !netlocDelim c)
    if netloc.contains '[' != netloc.contains ']' then
      .error ("Invalid IPv6 URL").data
    else
      let (url4, fragment) := if url3.contains '#' then pySplitOnce '#' url3 else (url3, [])
      let (url5, query) := if url4.contains '?' then pySplitOnce '?' url4 else (url4, [])
      .ok ⟨scheme, netloc, url5, query, fragment⟩
  else
    let (url4, fragment) := if url2.contains '#' then pySplitOnce '#' url2 else (url2, [])
    let (url5, query) := if url4.contains '?' then pySplitOnce '?' url4 else (url4, [])
    .ok ⟨scheme, [], url5, query, fragment⟩

/-- Embedding of urllib.parse._splitparams.  The find-from-rfind slice
arithmetic is reproduced, including the url[:-1] behaviour at a -1
index (unreachable from urlparse, which guards on a semicolon being
present). -/
def splitparams (url : List Char) : List Char × List Char :=
  if url.contains '/' then
    match (pyFindAux ';' (url.drop ((pyRfind '/' url).getD 0))).map
        (fun i => i + (pyRfind '/' url).getD 0) with
    | none => (url, [])
    | some i => (url.take i, url.drop (i + 1))
  else
    match pyFindAux ';' url with
    | none => (url.dropLast, url)
    | some i => (url.take i, url.drop (i + 1))

/-- Embedding of urllib.parse.urlparse: urlsplit, then split the params
off the path when the scheme uses params and the path holds a
semicolon. -/
def pyUrlparse (url : List Char) (defaultScheme : List Char) :
    Except (List Char) URLParseResult :=
  (pyUrlsplit url defaultScheme).map fun r =>
    if usesParams.contains r.scheme && r.path.contains ';' then
      let pp := splitparams r.path
      ⟨r.scheme, r.netloc, pp.fst, pp.snd, r.query, r.fragment⟩
    else
      ⟨r.scheme, r.netloc, r.path, [], r.query, r.fragment⟩

/-- Embedding of urllib.parse.urlunsplit (CPython 3.11): the double
slash is emitted when a netloc is present, or when the scheme is
nonempty, uses a netloc, and the path does not already start with a
double slash. -/
def pyUrlunsplit (scheme netloc url query fragment : List Char) : List Char :=
  let url1 :=
    if !netloc.isEmpty ||
        (!scheme.isEmpty && usesNetloc.contains scheme && url.take 2 ≠ ['/', '/']) then
      let url' := if !url.isEmpty && url.take 1 ≠ ['/'] then '/' :: url else url
      '/' :: '/' :: (netloc ++ url')
    else url
  let url2 := if !scheme.isEmpty then scheme ++ ':' :: url1 else url1
  let url3 := if !query.isEmpty then url2 ++ '?' :: query else url2
  if !fragment.isEmpty then url3 ++ '#' :: fragment else url3

/-- Embedding of urllib.parse.urlunparse. -/
def pyUrlunparse (r : URLParseResult) : List Char :=
  let url := if !r.params.isEmpty then r.path ++ ';' :: r.params else r.path
  pyUrlunsplit r.scheme r.netloc url r.query r.fragment

/-- Tail of the middle-filtering step segments[1:-1] =
filter(None, segments[1:-1]): keeps the last element even when empty,
drops other empty elements. -/
def filterMiddleAux : List (List Char) → List (List Char)
  | [] => []
  | [s] => [s]
  | s :: rest => if s.isEmpty then filterMiddleAux rest else s :: filterMiddleAux rest

/-- The middle-filtering step of urljoin: the head and last elements
are kept, empty elements strictly between them are dropped. -/
def filterMiddle : List (List Char) → List (List Char)
  | [] => []
  | s :: rest => s :: filterMiddleAux rest

/-- The segment-resolution loop of urljoin, accumulating the resolved
path in reverse; a dot-dot pops the accumulator (popping an empty
accumulator is a no-op, matching the try/except IndexError), a dot is
skipped, any other segment is pushed. -/
def resolveSegs : List (List Char) → List (List Char) → List (List Char)
  | [], acc => acc.reverse
  | s :: rest, acc =>
    if s = ['.', '.'] then resolveSegs rest (acc.drop 1)
    else if s = ['.'] then resolveSegs rest acc
    else resolveSegs rest (s :: acc)

/-- Join of segments with a slash separator (str.join). -/
def joinSegs : List (List Char) → List Char
  | [] => []
  | [s] => s
  | s :: rest => s ++ '/' :: joinSegs rest

/-- Embedding of urllib.parse.urljoin with allow_fragments true. -/
def pyUrljoin (base url : List Char) : Except (List Char) (List Char) :=
  if base.isEmpty then .ok url
  else if url.isEmpty then .ok base
  else
    match pyUrlparse base [] with
    | .error e => .error e
    | .ok b =>
      match pyUrlparse url b.scheme with
      | .error e => .error e
      | .ok r =>
        if r.scheme != b.scheme || !usesRelative.contains r.scheme then
          .ok url
        else if usesNetloc.contains r.scheme && !r.netloc.isEmpty then
          .ok (pyUrlunparse ⟨r.scheme, r.netloc, r.path, r.params, r.query, r.fragment⟩)
        else
          let netloc := if usesNetloc.contains r.scheme then b.netloc else r.netloc
          if r.path.isEmpty && r.params.isEmpty then
            let query := if r.query.isEmpty then b.query else r.query
            .ok (pyUrlunparse ⟨r.scheme, netloc, b.path, b.params, query, r.fragment⟩)
          else
            let baseParts0 := pySplit '/' b.path
            let baseParts :=
              if (baseParts0.getLastD []).isEmpty then baseParts0 else baseParts0.dropLast
            let segments :=
              if r.path.take 1 = ['/'] then pySplit '/' r.path
              else filterMiddle (baseParts ++ pySplit '/' r.path)
            let resolved := resolveSegs segments []
            let resolved2 :=
              if (segments.getLastD []) = ['.'] || (segments.getLastD []) = ['.', '.'] then
                resolved ++ [[]]
              else resolved
            let joined := joinSegs resolved2
            let path2 := if joined.isEmpty then ['/'] else joined
            .ok (pyUrlunparse ⟨r.scheme, netloc, path2, r.params, r.query, r.fragment⟩)

/-- Embedding of build_url (src/bungie_client/utils.py lines 6 to 8):
urljoin(base_url.rstrip(slash) + slash, path.lstrip(slash)). -/
def build_url (base_url path : String) : Except String String :=
  match pyUrljoin (pyRstrip '/' base_url.data ++ ['/']) (pyLstrip '/' path.data) with
  | .ok l => .ok (String.mk l)
  | .error e => .error (String.mk e)

/-! The request gateway: BungieClient and _make_request
(src/bungie_client/client.py). -/

/-- Whitespace stripped by int() around a numeric literal (ASCII
whitespace; Python also strips non-ASCII Unicode whitespace, which no
header in scope contains). -/
def pyIntSpace (c : Char) : Bool :=
  c = ' ' || c = Char.ofNat 9 || c = Char.ofNat 10 ||
    c = Char.ofNat 11 || c = Char.ofNat 12 || c = Char.ofNat 13

/-- Digit-run parser of int(): decimal digits with single underscores
allowed between digits, at least one digit, nothing else.  The
accumulator is none until the first digit is read. -/
def parseDigits : List Char → Option Nat → Option Nat
  | [], acc => acc
  | c :: rest, acc =>
    if isAsciiDigit c then parseDigits rest (some ((acc.getD 0) * 10 + (c.toNat - 48)))
    else if c = '_' then
      match acc, rest with
      | some v, d :: _ => if isAsciiDigit d then parseDigits rest (some v) else none
      | _, _ => none
    else none

/-- Embedding of the Python int() constructor on a str (base 10):
optional surrounding whitespace, optional sign, digits with single
underscores between digits; anything else raises ValueError with the
message naming the repr of the operand. -/
def pyInt (s : String) : Except String Int :=
  let t := ((s.data.dropWhile pyIntSpace).reverse.dropWhile pyIntSpace).reverse
  let core : Option Int :=
    match t with
    | '+' :: rest => (parseDigits rest none).map Int.ofNat
    | '-' :: rest => (parseDigits rest none).map (fun n => -(n : Int))
    | _ => (parseDigits t none).map Int.ofNat
  match core with
  | some v => .ok v
  | none => .error ("invalid literal for int() with base 10: " ++ pyReprStr s)

/-- Outcome of the awaited httpx request: either a response (final
status code after redirects, headers, decoded JSON body) or a raised
httpx.RequestError (connection error, timeout) carrying a message.
The body is the value response.json() would return; the claims under
verification concern object envelopes. -/
inductive TransportOutcome where
  | response (status : Nat) (headers : List (String × String)) (body : Envelope)
  | requestError (message : String)

/-- Session state of a BungieClient (client.py lines 12 to 31): the
configuration fields set by the constructor and the mutable
last-request timestamp.  Times are rationals standing for the exact
values of time.time(). -/
structure ClientState where
  api_key : String
  base_url : String
  timeout : Int
  headers : List (String × String)
  last_request_time : ℚ
  min_time_between_requests : ℚ

/-- The BungieClient constructor (client.py lines 12 to 31). -/
def BungieClient_init (api_key : String) (timeout : Int) : ClientState :=
  { api_key := api_key
    base_url := "https://www.bungie.net/Platform"
    timeout := timeout
    headers := [("x-API-Key", api_key), ("Accept", "application/json")]
    last_request_time := 0
    min_time_between_requests := 1/10 }

/-- ASCII lowercase of a string (Python str.lower restricted to ASCII,
on which the two agree). -/
def asciiLower (s : String) : String := String.mk (s.data.map Char.toLower)

/-- Case-insensitive header lookup, as httpx response.headers.get. -/
def headersGet (hs : List (String × String)) (k : String) : Option String :=
  (hs.find? (fun p => asciiLower p.fst == asciiLower k)).map Prod.snd

/-- The retry delay computation of the 429 branch:
int(response.headers.get(Retry-After, 30)); the default 30 is an int
already, a present header string goes through int() and can raise. -/
def retryAfterValue (hs : List (String × String)) : Except String Int :=
  match headersGet hs "Retry-After" with
  | none => .ok 30
  | some s => pyInt s

/-- A single-quote as a string, for building messages that quote their
data. -/
def sq : String := String.mk [sqChar]

/-- Reason phrase of an HTTP status code as http.HTTPStatus provides it
to httpx (partial table of the common codes; unknown codes give the
empty phrase, as httpx does). -/
def reasonPhrase (status : Nat) : String :=
  if status = 301 then "Moved Permanently"
  else if status = 302 then "Found"
  else if status = 304 then "Not Modified"
  else if status = 400 then "Bad Request"
  else if status = 401 then "Unauthorized"
  else if status = 403 then "Forbidden"
  else if status = 404 then "Not Found"
  else if status = 429 then "Too Many Requests"
  else if status = 500 then "Internal Server Error"
  else if status = 502 then "Bad Gateway"
  else if status = 503 then "Service Unavailable"
  else ""

/-- Error-type word of the httpx raise_for_status message, keyed on the
hundreds digit of the status. -/
def errorTypeFor (status : Nat) : String :=
  if status / 100 = 1 then "Informational response"
  else if status / 100 = 3 then "Redirect response"
  else if status / 100 = 4 then "Client error"
  else if status / 100 = 5 then "Server error"
  else "Invalid status code"

/-- str(e) of the httpx.HTTPStatusError raised by raise_for_status. -/
def httpStatusErrorStr (status : Nat) (url : String) : String :=
  errorTypeFor status ++ " " ++ sq ++ toString status ++ " " ++ reasonPhrase status ++ sq ++
    " for url " ++ sq ++ url ++ sq ++
    "\nFor more information check: https://developer.mozilla.org/en-US/docs/Web/HTTP/Status/" ++
    toString status

/-- Errors escaping _make_request: a raised BungieAPIException (or
subclass), or an uncaught ValueError (from int() on a malformed
Retry-After header, or from urljoin bracket validation). -/
inductive MakeRequestError where
  | exc (e : BungieExc)
  | valueError (message : String)

/-- Result of one _make_request call: the returned payload or raised
error, the session state after the call, the duration of the throttle
sleep, and the moment the transport call is dispatched (the await of
the sleep is exact and the surrounding bookkeeping instantaneous). -/
structure MakeRequestOut where
  result : Except MakeRequestError JSONValue
  state : ClientState
  slept : ℚ
  dispatched_at : ℚ

/-- Embedding of BungieClient._make_request (client.py lines 37 to 82).
t1 is the time.time() reading in the throttle computation, t2 the
reading taken right after the transport call returns; the transport
call itself is abstracted by the outcome argument.  The method, params
and data arguments are carried for fidelity of the call shape; the
transport outcome already accounts for them. -/
def make_request (st : ClientState) (t1 t2 : ℚ) ( _method : String) (endpoint : String)
    ( _params : List (String × JSONValue)) ( _data : Option JSONValue)
    (outcome : TransportOutcome) : MakeRequestOut :=
  let time_since_last := t1 - st.last_request_time
  let slept :=
    if time_since_last < st.min_time_between_requests then
      st.min_time_between_requests - time_since_last
    else 0
  let dispatched_at := t1 + slept
  let rs : Except MakeRequestError JSONValue × ClientState :=
    match build_url st.base_url endpoint with
    | .error m => (.error (.valueError m), st)
    | .ok url =>
      match outcome with
      | .requestError msg =>
        (.error (.exc ⟨.generic, "Request error occurred: " ++ msg, none, none⟩), st)
      | .response status headers body =>
        let st' := { st with last_request_time := t2 }
        if status = 429 then
          match retryAfterValue headers with
          | .error m => (.error (.valueError m), st')
          | .ok retry_after =>
            (.error (.exc ⟨.rateLimit,
              "Rate limit exceeded. Try again after " ++ toString retry_after ++ " seconds.",
              none, some (.httpResponse status headers body)⟩), st')
        else if !(200 ≤ status && status ≤ 299) then
          (.error (.exc ⟨.generic, "HTTP error occurred: " ++ httpStatusErrorStr status url,
            some (.num status), some (.httpResponse status headers body)⟩), st')
        else
          ((handle_bungie_response body).mapError MakeRequestError.exc, st')
  ⟨rs.fst, rs.snd, slept, dispatched_at⟩

/-- The platform lookup table of search_destiny_player (client.py
lines 100 to 106). -/
def platform_map : List (String × String) :=
  [("xbox", "1"), ("psn", "2"), ("steam", "3"), ("stadia", "5"), ("epic", "6")]

/-- The membership-type resolution of search_destiny_player: -1 unless
a truthy platform string maps through the table of its lowercase. -/
def membership_type_for (platform : Option String) : String :=
  match platform with
  | none => "-1"
  | some p =>
    if p ≠ "" then
      ((platform_map.find? (fun q => q.fst == asciiLower p)).map Prod.snd).getD "-1"
    else "-1"

/-- Endpoint built by search_destiny_player (client.py line 109). -/
def search_destiny_player_endpoint (display_name : String) (platform : Option String) : String :=
  "/Destiny2/SearchDestinyPlayer/" ++ membership_type_for platform ++ "/" ++ display_name

/-- Embedding of search_destiny_player (client.py lines 85 to 110). -/
def search_destiny_player (st : ClientState) (t1 t2 : ℚ) (display_name : String)
    (platform : Option String) (outcome : TransportOutcome) : MakeRequestOut :=
  make_request st t1 t2 "GET" (search_destiny_player_endpoint display_name platform)
    [] none outcome

/-- Endpoint built by get_profile (client.py line 122). -/
def get_profile_endpoint (membership_type : Int) (destiny_membership_id : String) : String :=
  "/Destiny2/" ++ toString membership_type ++ "/Profile/" ++ destiny_membership_id ++ "/"

/-- Embedding of get_profile (client.py lines 113 to 124): components
joined with commas in caller order. -/
def get_profile (st : ClientState) (t1 t2 : ℚ) (membership_type : Int)
    (destiny_membership_id : String) (components : List String)
    (outcome : TransportOutcome) : MakeRequestOut :=
  make_request st t1 t2 "GET" (get_profile_endpoint membership_type destiny_membership_id)
    [("components", .str (String.intercalate "," components))] none outcome

/-- Endpoint built by get_activity_history (client.py line 139). -/
def get_activity_history_endpoint (membership_type : Int) (destiny_membership_id : String)
    (character_id : String) : String :=
  "/Destiny2/" ++ toString membership_type ++ "/Account/" ++ destiny_membership_id ++
    "/Character/" ++ character_id ++ "/Stats/Activities/"

/-- Embedding of get_activity_history (client.py lines 127 to 147):
page and count always present, mode only when supplied. -/
def get_activity_history (st : ClientState) (t1 t2 : ℚ) (membership_type : Int)
    (destiny_membership_id : String) (character_id : String) (mode : Option Int)
    (page : Int) (count : Int) (outcome : TransportOutcome) : MakeRequestOut :=
  make_request st t1 t2 "GET"
    (get_activity_history_endpoint membership_type destiny_membership_id character_id)
    ([("page", .num page), ("count", .num count)] ++
      (match mode with
       | some m => [("mode", .num m)]
       | none => [])) none outcome

/-- Characters that pass through urljoin untouched inside a path
segment: printable ASCII other than the URL delimiters colon, slash,
question mark, hash, brackets and semicolon. -/
def safeChar (c : Char) : Bool :=
  33 ≤ c.toNat && c.toNat ≤ 126 && !(c = ':') && !(c = '/') && !(c = '?') &&
    !(c = '#') && !(c = '[') && !(c = ']') && !(c = ';')

/-- A plain URL segment: nonempty, not a dot or dot-dot segment, all
safe characters. -/
def segOK (s : List Char) : Bool :=
  !s.isEmpty && !(s = ['.']) && !(s = ['.', '.']) && s.all safeChar

/-- Characters on which urlsplit finds nothing to strip, split or
interpret in a scheme-less, netloc-less URL. -/
def urlPlainChar (c : Char) : Bool :=
  !c0OrSpace c && !(c = ':') && !(c = '#') && !(c = '?') && !(c = ';')

/-- Shape of the start of a base URL in the amended URL-joining claim:
nothing, a root slash, or a lowercase http or https scheme with its
authority marker. -/
inductive BaseHead where
  | plain : BaseHead
  | rooted : BaseHead
  | http : BaseHead
  | https : BaseHead

/-- The characters contributed by a base head. -/
def headChars : BaseHead → List Char
  | .plain => []
  | .rooted => ['/']
  | .http => ("http://").data
  | .https => ("https://").data

/-- Class of the exception raised by a _make_request result, when the
result is a raised BungieAPIException (or subclass); none for a
returned payload or an uncaught ValueError. -/
def raisedClass : Except MakeRequestError JSONValue → Option ExcClass
  | .error (.exc e) => some e.cls
  | _ => none

/-- C1: handle_bungie_response raises exactly when the Response field is
absent or falsy and ErrorCode is not equal to 1; the raised exception is
a plain BungieAPIException whose message is "ErrorStatus: Message" with
defaults "Unknown Error", 0 and "No error message provided", carrying
the envelope ErrorCode and the full raw envelope. -/
theorem c1_envelope_error_iff (d : Envelope) :
    ((∃ e, handle_bungie_response d = Except.error e) ↔
      (pyTruthyOpt (pyGet d "Response") = false ∧ pyEqOneOpt (pyGet d "ErrorCode") = false)) ∧
    (∀ e, handle_bungie_response d = Except.error e →
      e.cls = ExcClass.generic ∧
      e.message =
        pyStrOf ((pyGet d "ErrorStatus").getD (JSONValue.str "Unknown Error")) ++ ": " ++
          pyStrOf ((pyGet d "Message").getD (JSONValue.str "No error message provided")) ∧
      e.error_code = some ((pyGet d "ErrorCode").getD (JSONValue.num 0)) ∧
      e.response = some (RawAttachment.envelope d)) := by
  by_cases hcond :
      (!pyTruthyOpt (pyGet d "Response") && !pyEqOneOpt (pyGet d "ErrorCode")) = true
  · have hbig : handle_bungie_response d = Except.error
        { cls := .generic
          message :=
            pyStrOf ((pyGet d "ErrorStatus").getD (JSONValue.str "Unknown Error")) ++ ": " ++
              pyStrOf ((pyGet d "Message").getD (JSONValue.str "No error message provided"))
          error_code := some ((pyGet d "ErrorCode").getD (JSONValue.num 0))
          response := some (.envelope d) } := by
      unfold handle_bungie_response
      rw [if_pos hcond]
    refine ⟨⟨fun _ => ?_, fun _ => ?_⟩, ?_⟩
    · have h12 := hcond
      rw [Bool.and_eq_true] at h12
      exact ⟨by simpa using h12.1, by simpa using h12.2⟩
    · exact ⟨_, hbig⟩
    · intro e he
      rw [hbig] at he
      injection he with h
      subst h
      exact ⟨rfl, rfl, rfl, rfl⟩
  · have hok : handle_bungie_response d =
        Except.ok ((pyGet d "Response").getD (JSONValue.obj d)) := by
      unfold handle_bungie_response
      rw [if_neg hcond]
    refine ⟨⟨?_, ?_⟩, ?_⟩
    · rintro ⟨e, he⟩
      rw [hok] at he
      exact Except.noConfusion he
    · rintro ⟨h1, h2⟩
      exact absurd (by simp [h1, h2]) hcond
    · intro e he
      rw [hok] at he
      exact Except.noConfusion he

/-- Witness for C1 at the error-envelope example of the spec. -/
theorem c1_envelope_error_iff_witness :
    handle_bungie_response demoErrEnv = Except.error demoErrExc ∧
    demoErrExc.cls = ExcClass.generic ∧
    demoErrExc.message = "Unauthorized: bad key" ∧
    demoErrExc.error_code = some (JSONValue.num 5) :=
  ⟨rfl, ((c1_envelope_error_iff demoErrEnv).2 demoErrExc rfl).1, rfl, rfl⟩

/-- C2: on the success condition (Response truthy, or ErrorCode equal
to 1) handle_bungie_response returns the Response value when that key is
present and the whole envelope otherwise. -/
theorem c2_success_returns (d : Envelope)
    (h : pyTruthyOpt (pyGet d "Response") = true ∨ pyEqOneOpt (pyGet d "ErrorCode") = true) :
    handle_bungie_response d = Except.ok ((pyGet d "Response").getD (JSONValue.obj d)) ∧
    (∀ v, pyGet d "Response" = some v → handle_bungie_response d = Except.ok v) ∧
    (pyGet d "Response" = none → handle_bungie_response d = Except.ok (JSONValue.obj d)) := by
  have hcond :
      ¬((!pyTruthyOpt (pyGet d "Response") && !pyEqOneOpt (pyGet d "ErrorCode")) = true) := by
    rcases h with h | h <;> simp [h]
  have hmain : handle_bungie_response d =
      Except.ok ((pyGet d "Response").getD (JSONValue.obj d)) := by
    unfold handle_bungie_response
    rw [if_neg hcond]
  refine ⟨hmain, ?_, ?_⟩
  · intro v hv
    rw [hv] at hmain
    simpa using hmain
  · intro hv
    rw [hv] at hmain
    simpa using hmain

/-- Witness for C2 at the two success examples of the spec. -/
theorem c2_success_returns_witness :
    handle_bungie_response demoOkEnv = Except.ok (JSONValue.obj [("x", JSONValue.num 1)]) ∧
    handle_bungie_response demoOkEnvNoBody = Except.ok (JSONValue.obj demoOkEnvNoBody) :=
  ⟨(c2_success_returns demoOkEnv (Or.inl rfl)).2.1 _ rfl,
   (c2_success_returns demoOkEnvNoBody (Or.inr rfl)).2.2 rfl⟩

/-- C3 counterexample: urljoin does not preserve the two inputs around
a single seam slash in general: it resolves dot segments, collapses
internal double slashes, discards a base carrying a query string, and
abandons the base entirely for a path bearing its own scheme. -/
theorem c3_counterexample :
    build_url "a" "./b" = Except.ok "a/b" ∧
    build_url "a" "./b" ≠ Except.ok "a/./b" ∧
    build_url "a" "b//c" = Except.ok "a/b/c" ∧
    build_url "a" "b//c" ≠ Except.ok "a/b//c" ∧
    build_url "a?q" "b" = Except.ok "b" ∧
    build_url "a?q" "b" ≠ Except.ok "a?q/b" ∧
    build_url "a" "http://evil/x" = Except.ok "http://evil/x" ∧
    build_url "a" "http://evil/x" ≠ Except.ok "a/http://evil/x" :=
  ⟨rfl,
   by intro h
      change Except.ok "a/b" = Except.ok "a/./b" at h
      injection h with h3
      exact absurd h3 (by decide),
   rfl,
   by intro h
      change Except.ok "a/b/c" = Except.ok "a/b//c" at h
      injection h with h3
      exact absurd h3 (by decide),
   rfl,
   by intro h
      change Except.ok "b" = Except.ok "a?q/b" at h
      injection h with h3
      exact absurd h3 (by decide),
   rfl,
   by intro h
      change Except.ok "http://evil/x" = Except.ok "a/http://evil/x" at h
      injection h with h3
      exact absurd h3 (by decide)⟩

/-- Helper: a character above the C0-or-space range is not an unsafe
URL character. -/
theorem unsafe_of_not_c0 (c : Char) (h : c0OrSpace c = false) : unsafeURLChar c = false := by
  have h1 : ¬(c.toNat ≤ 32) := by simpa [c0OrSpace] using h
  have h9 : c ≠ Char.ofNat 9 := by intro he; subst he; exact h1 (by decide)
  have h13 : c ≠ Char.ofNat 13 := by intro he; subst he; exact h1 (by decide)
  have h10 : c ≠ Char.ofNat 10 := by intro he; subst he; exact h1 (by decide)
  simp [unsafeURLChar, h9, h13, h10]

/-- Helper: the facts packed into safeChar. -/
theorem safeChar_props (c : Char) (h : safeChar c = true) :
    c0OrSpace c = false ∧ unsafeURLChar c = false ∧ c ≠ ':' ∧ c ≠ '/' ∧ c ≠ '?' ∧
      c ≠ '#' ∧ c ≠ '[' ∧ c ≠ ']' ∧ c ≠ ';' ∧ urlPlainChar c = true ∧
      netlocDelim c = false := by
  simp only [safeChar, Bool.and_eq_true, decide_eq_true_eq, Bool.not_eq_true',
    decide_eq_false_iff_not, and_assoc] at h
  obtain ⟨hlo, hhi, hc, hs, hq, hh, hlb, hrb, hsemi⟩ := h
  have hc0 : c0OrSpace c = false := by
    simp only [c0OrSpace, decide_eq_false_iff_not]
    omega
  refine ⟨hc0, unsafe_of_not_c0 c hc0, hc, hs, hq, hh, hlb, hrb, hsemi, ?_, ?_⟩
  · simp [urlPlainChar, hc0, hc, hh, hq, hsemi]
  · simp [netlocDelim, hs, hq, hh]

/-- Helper: the facts packed into segOK. -/
theorem segOK_props (s : List Char) (h : segOK s = true) :
    s ≠ [] ∧ s ≠ ['.'] ∧ s ≠ ['.', '.'] ∧ ∀ c ∈ s, safeChar c = true := by
  simp only [segOK, Bool.and_eq_true, Bool.not_eq_true', decide_eq_false_iff_not,
    List.all_eq_true, and_assoc] at h
  obtain ⟨he, hd1, hd2, hall⟩ := h
  refine ⟨?_, hd1, hd2, hall⟩
  intro hs
  subst hs
  simp at he

/-- Helper: find misses when the character is absent. -/
theorem pyFindAux_eq_none (c : Char) (l : List Char) (h : ∀ d ∈ l, d ≠ c) :
    pyFindAux c l = none := by
  induction l with
  | nil => rfl
  | cons a rest ih =>
    have ha : a ≠ c := h a (by simp)
    simp [pyFindAux, ha, ih (fun d hd => h d (by simp [hd]))]

/-- Helper: contains is false when the character is absent. -/
theorem contains_eq_false (a : Char) (l : List Char) (h : ∀ d ∈ l, d ≠ a) :
    l.contains a = false := by
  induction l with
  | nil => rfl
  | cons b rest ih =>
    have hab : ¬(a = b) := fun hh => (h b (by simp)) hh.symm
    simp only [List.contains_cons]
    rw [ih (fun d hd => h d (by simp [hd]))]
    simp [hab]

/-- Helper: dropWhile jumps a satisfying block. -/
theorem dropWhile_append_all {p : Char → Bool} (xs ys : List Char)
    (h : ∀ c ∈ xs, p c = true) : (xs ++ ys).dropWhile p = ys.dropWhile p := by
  induction xs with
  | nil => rfl
  | cons a rest ih =>
    simp only [List.cons_append, List.dropWhile_cons, h a (by simp)]
    exact ih (fun c hc => h c (by simp [hc]))

/-- Helper: takeWhile keeps a satisfying block. -/
theorem takeWhile_append_all {p : Char → Bool} (xs ys : List Char)
    (h : ∀ c ∈ xs, p c = true) : (xs ++ ys).takeWhile p = xs ++ ys.takeWhile p := by
  induction xs with
  | nil => rfl
  | cons a rest ih =>
    simp [List.takeWhile_cons, h a (by simp), ih (fun c hc => h c (by simp [hc]))]

/-- Helper: lstrip of a run of slashes. -/
theorem pyLstrip_replicate_append (n : Nat) (l : List Char) :
    pyLstrip '/' (List.replicate n '/' ++ l) = pyLstrip '/' l := by
  unfold pyLstrip
  exact dropWhile_append_all _ _ (fun c hc => by
    rw [List.eq_of_mem_replicate hc]; simp)

/-- Helper: lstrip keeps a list whose head is not a slash. -/
theorem pyLstrip_eq_self (l : List Char) (h : ∀ d, l.head? = some d → d ≠ '/') :
    pyLstrip '/' l = l := by
  unfold pyLstrip
  cases l with
  | nil => rfl
  | cons a rest => simp [List.dropWhile_cons, h a rfl]

/-- Helper: rstrip of a trailing run of slashes. -/
theorem pyRstrip_append_replicate (l : List Char) (n : Nat) :
    pyRstrip '/' (l ++ List.replicate n '/') = pyRstrip '/' l := by
  unfold pyRstrip
  rw [List.reverse_append, List.reverse_replicate]
  rw [dropWhile_append_all _ _ (fun c hc => by rw [List.eq_of_mem_replicate hc]; simp)]

/-- Helper: rstrip keeps a list ending in a non-slash character. -/
theorem pyRstrip_concat_ne (l : List Char) (d : Char) (h : d ≠ '/') :
    pyRstrip '/' (l ++ [d]) = l ++ [d] := by
  unfold pyRstrip
  rw [List.reverse_append]
  simp [List.dropWhile_cons, h]

/-- Helper: a split result is never the empty list. -/
theorem pySplit_ne_nil (sep : Char) (l : List Char) : pySplit sep l ≠ [] := by
  cases l with
  | nil => simp [pySplit]
  | cons a rest =>
    cases hs : pySplit sep rest with
    | nil => simp [pySplit, hs]
    | cons h t => by_cases hc : a = sep <;> simp [pySplit, hs, hc]

/-- Helper: splitting a separator-free list yields one field. -/
theorem pySplit_no_sep (sep : Char) (l : List Char) (h : ∀ c ∈ l, c ≠ sep) :
    pySplit sep l = [l] := by
  induction l with
  | nil => rfl
  | cons a rest ih =>
    rw [pySplit, ih (fun c hc => h c (by simp [hc]))]
    simp [h a (by simp)]

/-- Helper: splitting starts over after a separator following a
separator-free block. -/
theorem pySplit_append_sep (sep : Char) (xs ys : List Char) (h : ∀ c ∈ xs, c ≠ sep) :
    pySplit sep (xs ++ sep :: ys) = xs :: pySplit sep ys := by
  induction xs with
  | nil =>
    cases hs : pySplit sep ys with
    | nil => exact absurd hs (pySplit_ne_nil sep ys)
    | cons hh tt => simp [pySplit, hs]
  | cons a rest ih =>
    rw [List.cons_append, pySplit, ih (fun c hc => h c (by simp [hc]))]
    simp [h a (by simp)]

/-- Helper: a trailing separator appends one empty field. -/
theorem pySplit_concat_sep (sep : Char) (xs : List Char) :
    pySplit sep (xs ++ [sep]) = pySplit sep xs ++ [[]] := by
  induction xs with
  | nil => simp [pySplit]
  | cons a rest ih =>
    cases hs : pySplit sep rest with
    | nil => exact absurd hs (pySplit_ne_nil sep rest)
    | cons hh tt =>
      rw [List.cons_append, pySplit, ih, hs]
      by_cases hc : a = sep <;> simp [pySplit, hs, hc]

/-- Helper: splitting a slash join of slash-free segments recovers the
segments. -/
theorem pySplit_join (segs : List (List Char)) (hne : segs ≠ [])
    (h : ∀ s ∈ segs, ∀ c ∈ s, c ≠ '/') : pySplit '/' (joinSegs segs) = segs := by
  induction segs with
  | nil => exact absurd rfl hne
  | cons s rest ih =>
    cases rest with
    | nil => exact pySplit_no_sep '/' s (h s (by simp))
    | cons t rest' =>
      rw [joinSegs, pySplit_append_sep '/' s _ (h s (by simp))]
      · rw [ih (by simp) (fun u hu c hc => h u (by simp [hu]) c hc)]
      · simp

/-- Helper: the join of two nonempty segment lists. -/
theorem joinSegs_append (xs ys : List (List Char)) (hx : xs ≠ []) (hy : ys ≠ []) :
    joinSegs (xs ++ ys) = joinSegs xs ++ '/' :: joinSegs ys := by
  induction xs with
  | nil => exact absurd rfl hx
  | cons s rest ih =>
    cases rest with
    | nil =>
      cases ys with
      | nil => exact absurd rfl hy
      | cons y ys' => simp [joinSegs]
    | cons t rest' =>
      rw [List.cons_append, joinSegs]
      · rw [ih (by simp)]
        simp [joinSegs]
      · simp

/-- Helper: middle filtering over a block of nonempty segments. -/
theorem filterMiddleAux_append (xs ys : List (List Char)) (hx : ∀ s ∈ xs, s ≠ [])
    (hy : ys ≠ []) : filterMiddleAux (xs ++ ys) = xs ++ filterMiddleAux ys := by
  induction xs with
  | nil => rfl
  | cons s rest ih =>
    have hs : ¬s.isEmpty = true := by
      simp only [List.isEmpty_iff]
      exact hx s (by simp)
    cases rest with
    | nil =>
      cases ys with
      | nil => exact absurd rfl hy
      | cons y ys' => simp [filterMiddleAux, hs]
    | cons t rest' =>
      have : ((t :: rest') ++ ys) ≠ [] := by simp
      rw [List.cons_append]
      cases hts : (t :: rest') ++ ys with
      | nil => exact absurd hts this
      | cons u us =>
        rw [filterMiddleAux]
        · rw [← hts, ih (fun a ha => hx a (by simp [ha]))]
          simp [hs]
        · simp

/-- Helper: middle filtering drops a leading empty segment of a
nonempty tail. -/
theorem filterMiddleAux_nil_cons (ys : List (List Char)) (hy : ys ≠ []) :
    filterMiddleAux ([] :: ys) = filterMiddleAux ys := by
  cases ys with
  | nil => exact absurd rfl hy
  | cons y ys' => simp [filterMiddleAux]

/-- Helper: middle filtering keeps a list whose non-final segments are
nonempty. -/
theorem filterMiddleAux_all (xs : List (List Char))
    (h : ∀ s ∈ xs.dropLast, s ≠ []) : filterMiddleAux xs = xs := by
  induction xs with
  | nil => rfl
  | cons s rest ih =>
    cases rest with
    | nil => rfl
    | cons t rest' =>
      have hs : ¬s.isEmpty = true := by
        simp only [List.isEmpty_iff]
        exact h s (by simp [List.dropLast])
      rw [filterMiddleAux]
      · rw [ih (fun a ha => h a (by simp [List.dropLast, ha]))]
        simp [hs]
      · simp

/-- Helper: segment resolution is the identity without dot
segments. -/
theorem resolveSegs_no_dots (segs : List (List Char)) (acc : List (List Char))
    (h : ∀ s ∈ segs, s ≠ ['.'] ∧ s ≠ ['.', '.']) :
    resolveSegs segs acc = acc.reverse ++ segs := by
  induction segs generalizing acc with
  | nil => simp [resolveSegs]
  | cons s rest ih =>
    have hs := h s (by simp)
    rw [resolveSegs, if_neg hs.2, if_neg hs.1]
    rw [ih (s :: acc) (fun u hu => h u (by simp [hu]))]
    simp

/-- Helper: the last element of a list with an appended tail. -/
theorem getLastD_append_ne (xs ys : List (List Char)) (d : List Char) (hy : ys ≠ []) :
    (xs ++ ys).getLastD d = ys.getLastD d := by
  induction xs generalizing d with
  | nil => rfl
  | cons a rest ih =>
    rw [List.cons_append, List.getLastD_cons, ih a]
    cases ys with
    | nil => exact absurd rfl hy
    | cons y ys' => rw [List.getLastD_cons, List.getLastD_cons]

/-- Helper: urlsplit on a scheme-less, netloc-less, fragment-less and
query-less URL leaves everything in the path with the default
scheme. -/
theorem pyUrlsplit_plain (x ds : List Char) (h : ∀ c ∈ x, urlPlainChar c = true)
    (htake : ¬(x.take 2 = ['/', '/'])) :
    pyUrlsplit x ds = .ok ⟨ds, [], x, [], []⟩ := by
  have hprops : ∀ c ∈ x, c0OrSpace c = false ∧ c ≠ ':' ∧ c ≠ '#' ∧ c ≠ '?' := by
    intro c hc
    have := h c hc
    simp only [urlPlainChar, Bool.and_eq_true, Bool.not_eq_true',
      decide_eq_false_iff_not, and_assoc] at this
    exact ⟨this.1, this.2.1, this.2.2.1, this.2.2.2.1⟩
  have hl : lstripC0 x = x := by
    unfold lstripC0
    cases x with
    | nil => rfl
    | cons a rest => simp [List.dropWhile_cons, (hprops a (by simp)).1]
  have hru : removeUnsafe x = x := by
    unfold removeUnsafe
    rw [List.filter_eq_self]
    intro c hc
    simp [unsafe_of_not_c0 c (hprops c hc).1]
  have hfind : pyFindAux ':' x = none :=
    pyFindAux_eq_none ':' x (fun d hd => (hprops d hd).2.1)
  have hhash : x.contains '#' = false :=
    contains_eq_false '#' x (fun d hd => (hprops d hd).2.2.1)
  have hq : x.contains '?' = false :=
    contains_eq_false '?' x (fun d hd => (hprops d hd).2.2.2)
  have hhm : ¬(('#' : Char) ∈ x) := fun hm => (hprops '#' hm).2.2.1 rfl
  have hqm : ¬(('?' : Char) ∈ x) := fun hm => (hprops '?' hm).2.2.2 rfl
  have hss : schemeSplit x ds = (ds, x) := by
    unfold schemeSplit
    rw [hfind]
  unfold pyUrlsplit
  rw [hl, hru]
  dsimp only
  rw [hss]
  dsimp only
  rw [if_neg htake]
  simp [hhash, hq, hhm, hqm]

/-- Helper: urlparse on such a URL adds empty params. -/
theorem pyUrlparse_plain (x ds : List Char) (h : ∀ c ∈ x, urlPlainChar c = true)
    (htake : ¬(x.take 2 = ['/', '/'])) :
    pyUrlparse x ds = .ok ⟨ds, [], x, [], [], []⟩ := by
  have hsemiB : x.contains ';' = false := by
    refine contains_eq_false ';' x (fun d hd => ?_)
    intro hde
    subst hde
    have h2 := h ';' hd
    simp [urlPlainChar, c0OrSpace] at h2
  have hsemiM : ¬((';' : Char) ∈ x) := by
    intro hm
    have h2 := h ';' hm
    simp [urlPlainChar, c0OrSpace] at h2
  unfold pyUrlparse
  rw [pyUrlsplit_plain x ds h htake]
  dsimp only [Except.map]
  simp [hsemiB, hsemiM]

/-- Helper: the netloc split keeps a safe host and stops at the
following slash. -/
theorem netloc_take (b1 t2 : List Char) (hb1 : ∀ c ∈ b1, safeChar c = true)
    (ht2h : t2.take 1 = ['/']) :
    (b1 ++ t2).takeWhile (fun c => !netlocDelim c) = b1 := by
  rw [takeWhile_append_all _ _ (fun c hc => by
    have := (safeChar_props c (hb1 c hc)).2.2.2.2.2.2.2.2.2.2
    simp [this])]
  cases t2 with
  | nil => simp at ht2h
  | cons a rest =>
    have ha : a = '/' := by
      simpa using congrArg (fun l => l.headD ' ') ht2h
    subst ha
    simp [List.takeWhile_cons, netlocDelim]

/-- Helper: the netloc split leaves the path after the host. -/
theorem netloc_drop (b1 t2 : List Char) (hb1 : ∀ c ∈ b1, safeChar c = true)
    (ht2h : t2.take 1 = ['/']) :
    (b1 ++ t2).dropWhile (fun c => !netlocDelim c) = t2 := by
  rw [dropWhile_append_all _ _ (fun c hc => by
    have := (safeChar_props c (hb1 c hc)).2.2.2.2.2.2.2.2.2.2
    simp [this])]
  cases t2 with
  | nil => simp at ht2h
  | cons a rest =>
    have ha : a = '/' := by
      simpa using congrArg (fun l => l.headD ' ') ht2h
    subst ha
    simp [List.dropWhile_cons, netlocDelim]

/-- Helper: urlparse on a lowercase http or https URL with a safe host
and a slash-led safe path: the scheme and host split off and the rest
is the path, with empty params, query and fragment. -/
theorem pyUrlparse_scheme (isS : Bool) (b1 t2 : List Char) ( _hb1ne : b1 ≠ [])
    (hb1 : ∀ c ∈ b1, safeChar c = true)
    (ht2h : t2.take 1 = ['/'])
    (ht2 : ∀ c ∈ t2, c = '/' ∨ safeChar c = true) :
    pyUrlparse ((if isS then ("https://") else ("http://")).data ++ (b1 ++ t2)) [] =
      .ok ⟨(if isS then ("https") else ("http")).data, b1, t2, [], [], []⟩ := by
  have hsafe2 : ∀ c ∈ b1 ++ t2, unsafeURLChar c = false := by
    intro c hc
    rcases List.mem_append.mp hc with hc | hc
    · exact (safeChar_props c (hb1 c hc)).2.1
    · rcases ht2 c hc with rfl | hs
      · rfl
      · exact (safeChar_props c hs).2.1
  have ht2mem : ∀ (a : Char), a ≠ '/' → safeChar a = false → ¬(a ∈ t2) := by
    intro a hslash hsafe hm
    rcases ht2 a hm with h | h
    · exact hslash h
    · rw [hsafe] at h
      cases h
  have hb1brL : b1.contains '[' = false := by
    refine contains_eq_false '[' b1 (fun d hd => ?_)
    intro hde
    subst hde
    have := (safeChar_props '[' (hb1 '[' hd)).2.2.2.2.2.2.1
    exact this rfl
  have hb1brR : b1.contains ']' = false := by
    refine contains_eq_false ']' b1 (fun d hd => ?_)
    intro hde
    subst hde
    have := (safeChar_props ']' (hb1 ']' hd)).2.2.2.2.2.2.2.1
    exact this rfl
  have ht2hash : ¬(('#' : Char) ∈ t2) := ht2mem '#' (by decide) (by decide)
  have ht2q : ¬(('?' : Char) ∈ t2) := ht2mem '?' (by decide) (by decide)
  have ht2semi : ¬((';' : Char) ∈ t2) := ht2mem ';' (by decide) (by decide)
  have ht2hashB : t2.contains '#' = false :=
    contains_eq_false '#' t2 (fun d hd hde => ht2hash (hde ▸ hd))
  have ht2qB : t2.contains '?' = false :=
    contains_eq_false '?' t2 (fun d hd hde => ht2q (hde ▸ hd))
  have ht2semiB : t2.contains ';' = false :=
    contains_eq_false ';' t2 (fun d hd hde => ht2semi (hde ▸ hd))
  cases isS with
  | false =>
    have hclean : removeUnsafe (lstripC0 (("http://").data ++ (b1 ++ t2))) =
        ("http://").data ++ (b1 ++ t2) := by
      have h1 : lstripC0 (("http://").data ++ (b1 ++ t2)) =
          ("http://").data ++ (b1 ++ t2) := rfl
      rw [h1]
      unfold removeUnsafe
      rw [List.filter_eq_self]
      intro c hc
      rcases List.mem_append.mp hc with hc | hc
      · have : c ∈ ['h', 't', 't', 'p', ':', '/', '/'] := hc
        simp only [List.mem_cons] at this
        rcases this with rfl | rfl | rfl | rfl | rfl | rfl | rfl | hfalse
        · rfl
        · rfl
        · rfl
        · rfl
        · rfl
        · rfl
        · rfl
        · simp at hfalse
      · simp [hsafe2 c hc]
    have hss : schemeSplit (("http://").data ++ (b1 ++ t2)) [] =
        (("http").data, '/' :: '/' :: (b1 ++ t2)) := rfl
    unfold pyUrlparse pyUrlsplit
    dsimp only
    rw [show (if (false = true) then ("https://" : String) else "http://") = "http://" from rfl]
    rw [show (if (false = true) then ("https" : String) else "http") = "http" from rfl]
    rw [hclean]
    dsimp only
    rw [hss]
    dsimp only
    rw [if_pos (show List.take 2 ('/' :: '/' :: (b1 ++ t2)) = ['/', '/'] from rfl)]
    rw [show List.drop 2 ('/' :: '/' :: (b1 ++ t2)) = b1 ++ t2 from rfl]
    rw [netloc_take b1 t2 hb1 ht2h, netloc_drop b1 t2 hb1 ht2h]
    rw [hb1brL, hb1brR]
    simp [Except.map, ht2hashB, ht2qB, ht2hash, ht2q, ht2semi, ht2semiB]
  | true =>
    have hclean : removeUnsafe (lstripC0 (("https://").data ++ (b1 ++ t2))) =
        ("https://").data ++ (b1 ++ t2) := by
      have h1 : lstripC0 (("https://").data ++ (b1 ++ t2)) =
          ("https://").data ++ (b1 ++ t2) := rfl
      rw [h1]
      unfold removeUnsafe
      rw [List.filter_eq_self]
      intro c hc
      rcases List.mem_append.mp hc with hc | hc
      · have : c ∈ ['h', 't', 't', 'p', 's', ':', '/', '/'] := hc
        simp only [List.mem_cons] at this
        rcases this with rfl | rfl | rfl | rfl | rfl | rfl | rfl | rfl | hfalse
        · rfl
        · rfl
        · rfl
        · rfl
        · rfl
        · rfl
        · rfl
        · rfl
        · simp at hfalse
      · simp [hsafe2 c hc]
    have hss : schemeSplit (("https://").data ++ (b1 ++ t2)) [] =
        (("https").data, '/' :: '/' :: (b1 ++ t2)) := rfl
    unfold pyUrlparse pyUrlsplit
    dsimp only
    rw [show (if (true = true) then ("https://" : String) else "http://") = "https://" from rfl]
    rw [show (if (true = true) then ("https" : String) else "http") = "https" from rfl]
    rw [hclean]
    dsimp only
    rw [hss]
    dsimp only
    rw [if_pos (show List.take 2 ('/' :: '/' :: (b1 ++ t2)) = ['/', '/'] from rfl)]
    rw [show List.drop 2 ('/' :: '/' :: (b1 ++ t2)) = b1 ++ t2 from rfl]
    rw [netloc_take b1 t2 hb1 ht2h, netloc_drop b1 t2 hb1 ht2h]
    rw [hb1brL, hb1brR]
    simp [Except.map, ht2hashB, ht2qB, ht2hash, ht2q, ht2semi, ht2semiB]

/-- Helper: urljoin on parse results of the shapes produced by the
amended claim: a relative netloc-using scheme shared by both sides, a
base path splitting into fields ending in an empty field, and a
relative path of nonempty dot-free fields with an optional trailing
empty field.  The result re-joins the base directory fields with the
path fields. -/
theorem pyUrljoin_core (base url bs bn bp up : List Char) (pre psegs : List (List Char))
    (ptr' : Bool)
    (hbase_ne : base ≠ []) (hurl_ne : url ≠ [])
    (hbp : pyUrlparse base [] = .ok ⟨bs, bn, bp, [], [], []⟩)
    (hup : pyUrlparse url bs = .ok ⟨bs, [], up, [], [], []⟩)
    (hrel : usesRelative.contains bs = true)
    (hnetl : usesNetloc.contains bs = true)
    (hsplitb : pySplit '/' bp = pre ++ [[]])
    (hpre_ne : pre ≠ [])
    (hpre_tail : ∀ s ∈ pre.drop 1, s ≠ [])
    (hpre_nodot : ∀ s ∈ pre, s ≠ ['.'] ∧ s ≠ ['.', '.'])
    (hsplitu : pySplit '/' up = psegs ++ (if ptr' then [[]] else []))
    (hpsegs_ne : psegs ≠ [])
    (hpsegs_ok : ∀ s ∈ psegs, s ≠ [] ∧ s ≠ ['.'] ∧ s ≠ ['.', '.'])
    (hup_ne : up ≠ [])
    (hup_head : ¬(up.take 1 = ['/'])) :
    pyUrljoin base url =
      .ok (pyUrlunsplit bs bn
        (joinSegs (pre ++ (psegs ++ (if ptr' then [([] : List Char)] else [])))) [] []) := by
  obtain ⟨p0, prest, rfl⟩ : ∃ p0 prest, pre = p0 :: prest := by
    cases pre with
    | nil => exact absurd rfl hpre_ne
    | cons a rest => exact ⟨a, rest, rfl⟩
  have htr_ne : psegs ++ (if ptr' then [([] : List Char)] else []) ≠ [] := by
    cases psegs with
    | nil => exact absurd rfl hpsegs_ne
    | cons q qs => simp
  have hbne : ¬(base.isEmpty = true) := by simp [List.isEmpty_iff, hbase_ne]
  have hune : ¬(url.isEmpty = true) := by simp [List.isEmpty_iff, hurl_ne]
  unfold pyUrljoin
  rw [if_neg hbne, if_neg hune, hbp]
  dsimp only
  rw [hup]
  dsimp only
  have hrelm : bs ∈ usesRelative := by simpa using hrel
  rw [if_neg (show ¬((bs != bs || !usesRelative.contains bs) = true) by simp [hrelm])]
  rw [if_neg (show ¬((usesNetloc.contains bs && !(List.isEmpty ([] : List Char))) = true) by simp)]
  rw [if_pos hnetl]
  rw [if_neg (show ¬((up.isEmpty && List.isEmpty ([] : List Char)) = true) by
    simp [List.isEmpty_iff, hup_ne])]
  rw [hsplitb]
  rw [show ((p0 :: prest) ++ [([] : List Char)]).getLastD [] = [] from
    getLastD_append_ne _ [[]] [] (by simp)]
  rw [if_pos (show List.isEmpty ([] : List Char) = true from rfl)]
  rw [if_neg hup_head]
  rw [hsplitu]
  have hfm : filterMiddle (((p0 :: prest) ++ [[]]) ++
      (psegs ++ (if ptr' then [([] : List Char)] else []))) =
      p0 :: (prest ++ (psegs ++ (if ptr' then [([] : List Char)] else []))) := by
    have hassoc : ((p0 :: prest) ++ [[]]) ++
        (psegs ++ (if ptr' then [([] : List Char)] else [])) =
        p0 :: (prest ++ ([[]] ++ (psegs ++ (if ptr' then [([] : List Char)] else [])))) := by
      simp
    rw [hassoc]
    rw [filterMiddle]
    rw [filterMiddleAux_append prest _ (by
      intro s hs
      exact hpre_tail s (by simpa using hs)) (by simp)]
    rw [show ([[]] ++ (psegs ++ (if ptr' then [([] : List Char)] else []))) =
      ([] : List Char) :: (psegs ++ (if ptr' then [([] : List Char)] else [])) from rfl]
    rw [filterMiddleAux_nil_cons _ htr_ne]
    rw [filterMiddleAux_all _ (by
      intro s hs
      cases hp : ptr' with
      | true =>
        rw [hp] at hs
        rw [if_pos rfl, List.dropLast_concat] at hs
        exact (hpsegs_ok s hs).1
      | false =>
        rw [hp] at hs
        simp only [if_neg Bool.false_ne_true, List.append_nil] at hs
        exact (hpsegs_ok s (List.mem_of_mem_dropLast hs)).1)]
  rw [hfm]
  have hnodots : ∀ s ∈ p0 :: (prest ++ (psegs ++ (if ptr' then [([] : List Char)] else []))),
      s ≠ ['.'] ∧ s ≠ ['.', '.'] := by
    intro s hs
    rcases List.mem_cons.mp hs with rfl | hs
    · exact hpre_nodot s (by simp)
    · rcases List.mem_append.mp hs with hs | hs
      · exact hpre_nodot s (by simp [hs])
      · rcases List.mem_append.mp hs with hs | hs
        · exact (hpsegs_ok s hs).2
        · cases hp : ptr' with
          | true =>
            rw [hp] at hs
            have hs2 : s = [] := by simpa using hs
            subst hs2
            exact ⟨by decide, by decide⟩
          | false =>
            rw [hp] at hs
            simp at hs
  rw [resolveSegs_no_dots _ [] hnodots]
  simp only [List.reverse_nil, List.nil_append]
  have hlast3 : (p0 :: (prest ++ (psegs ++
        (if ptr' then [([] : List Char)] else [])))).getLastD [] ≠ ['.'] ∧
      (p0 :: (prest ++ (psegs ++
        (if ptr' then [([] : List Char)] else [])))).getLastD [] ≠ ['.', '.'] := by
    have heq : (p0 :: (prest ++ (psegs ++
        (if ptr' then [([] : List Char)] else [])))).getLastD [] =
        (psegs ++ (if ptr' then [([] : List Char)] else [])).getLastD [] := by
      rw [show p0 :: (prest ++ (psegs ++ (if ptr' then [([] : List Char)] else []))) =
        (p0 :: prest) ++ (psegs ++ (if ptr' then [([] : List Char)] else [])) from rfl]
      exact getLastD_append_ne _ _ _ htr_ne
    rw [heq]
    cases hp : ptr' with
    | true =>
      rw [if_pos rfl]
      rw [getLastD_append_ne psegs [[]] [] (by simp)]
      exact ⟨by decide, by decide⟩
    | false =>
      rw [if_neg Bool.false_ne_true, List.append_nil]
      rcases List.eq_nil_or_concat psegs with h | ⟨qs, q, rfl⟩
      · exact absurd h hpsegs_ne
      · rw [List.concat_eq_append]
        rw [getLastD_append_ne qs [q] [] (by simp)]
        have hq : q ∈ qs.concat q := by simp
        exact ⟨by
          show List.getLastD [q] [] ≠ ['.']
          simpa using (hpsegs_ok q hq).2.1, by
          show List.getLastD [q] [] ≠ ['.', '.']
          simpa using (hpsegs_ok q hq).2.2⟩
  rw [if_neg (show ¬((decide ((p0 :: (prest ++ (psegs ++
      (if ptr' then [([] : List Char)] else [])))).getLastD [] = ['.']) ||
      decide ((p0 :: (prest ++ (psegs ++
      (if ptr' then [([] : List Char)] else [])))).getLastD [] = ['.', '.'])) = true) by
    have h1 := hlast3.1
    have h2 := hlast3.2
    simp only [List.getLastD_eq_getLast?] at h1 h2
    simp [h1, h2])]
  have hjoin_ne : ¬((joinSegs (p0 :: (prest ++ (psegs ++
      (if ptr' then [([] : List Char)] else []))))).isEmpty = true) := by
    rw [show p0 :: (prest ++ (psegs ++ (if ptr' then [([] : List Char)] else []))) =
      (p0 :: prest) ++ (psegs ++ (if ptr' then [([] : List Char)] else [])) from rfl]
    rw [joinSegs_append _ _ (by simp) htr_ne]
    simp
  rw [if_neg hjoin_ne]
  simp [pyUrlunparse]

/-- Helper: characters of a join of safe segments are slashes or safe
characters. -/
theorem joinSegs_chars (segs : List (List Char)) (h : ∀ s ∈ segs, segOK s = true) :
    ∀ c ∈ joinSegs segs, c = '/' ∨ safeChar c = true := by
  induction segs with
  | nil => intro c hc; simp [joinSegs] at hc
  | cons s rest ih =>
    intro c hc
    cases rest with
    | nil =>
      right
      exact (segOK_props s (h s (by simp))).2.2.2 c hc
    | cons t rest' =>
      rw [show joinSegs (s :: t :: rest') = s ++ '/' :: joinSegs (t :: rest') from rfl] at hc
      rcases List.mem_append.mp hc with hc | hc
      · exact Or.inr ((segOK_props s (h s (by simp))).2.2.2 c hc)
      · rcases List.mem_cons.mp hc with rfl | hc
        · exact Or.inl rfl
        · exact ih (fun u hu => h u (by simp [hu])) c hc

/-- Helper: a join of safe segments ends in a safe character. -/
theorem joinSegs_last_safe (segs : List (List Char)) (hne : segs ≠ [])
    (h : ∀ s ∈ segs, segOK s = true) :
    ∃ ys d, joinSegs segs = ys ++ [d] ∧ safeChar d = true := by
  induction segs with
  | nil => exact absurd rfl hne
  | cons s rest ih =>
    cases rest with
    | nil =>
      have hs := segOK_props s (h s (by simp))
      rcases List.eq_nil_or_concat s with h0 | ⟨ys, d, rfl⟩
      · exact absurd h0 hs.1
      · refine ⟨ys, d, by simp [joinSegs], ?_⟩
        exact hs.2.2.2 d (by simp)
    | cons t rest' =>
      obtain ⟨ys, d, hjoin, hd⟩ := ih (by simp) (fun u hu => h u (by simp [hu]))
      refine ⟨s ++ '/' :: ys, d, ?_, hd⟩
      rw [show joinSegs (s :: t :: rest') = s ++ '/' :: joinSegs (t :: rest') from rfl, hjoin]
      simp

/-- Helper: a join of safe segments led by a nonempty safe segment
starts with a safe character. -/
theorem joinSegs_head_safe (s : List Char) (rest : List (List Char))
    (h : ∀ u ∈ s :: rest, segOK u = true) :
    ∃ d l', joinSegs (s :: rest) = d :: l' ∧ safeChar d = true := by
  have hs := segOK_props s (h s (by simp))
  rcases s with _ | ⟨d, s'⟩
  · exact absurd rfl hs.1
  · cases rest with
    | nil => exact ⟨d, s', rfl, hs.2.2.2 d (by simp)⟩
    | cons t rest' =>
      refine ⟨d, s' ++ '/' :: joinSegs (t :: rest'), ?_, hs.2.2.2 d (by simp)⟩
      rw [show joinSegs ((d :: s') :: t :: rest') =
        (d :: s') ++ '/' :: joinSegs (t :: rest') from rfl]
      simp

/-- Helper: segments passing segOK are slash-free. -/
theorem segOK_no_slash (segs : List (List Char)) (h : ∀ s ∈ segs, segOK s = true) :
    ∀ s ∈ segs, ∀ c ∈ s, c ≠ '/' := by
  intro s hs c hc
  exact ((safeChar_props c ((segOK_props s (h s hs)).2.2.2 c hc)).2.2.2.1)

/-- Helper: splitting a list led by the separator. -/
theorem pySplit_cons_sep (sep : Char) (l : List Char) :
    pySplit sep (sep :: l) = [] :: pySplit sep l := by
  cases hs : pySplit sep l with
  | nil => exact absurd hs (pySplit_ne_nil sep l)
  | cons hh tt => simp [pySplit, hs]

/-- Helper: the join of psegs with the optional empty trailing field is
the join of psegs with the optional trailing slash. -/
theorem joinSegs_ptrail (psegs : List (List Char)) (ptrail : Bool) (hne : psegs ≠ []) :
    joinSegs (psegs ++ (if ptrail then [([] : List Char)] else [])) =
      joinSegs psegs ++ (if ptrail then ['/'] else []) := by
  cases ptrail with
  | true =>
    rw [if_pos rfl, if_pos rfl, joinSegs_append psegs [[]] hne (by simp)]
    simp [joinSegs]
  | false =>
    rw [if_neg Bool.false_ne_true, if_neg Bool.false_ne_true]
    simp

/-- Helper: urlunsplit with empty scheme, netloc, query and fragment is
the path. -/
theorem pyUrlunsplit_plain (p : List Char) : pyUrlunsplit [] [] p [] [] = p := by
  simp [pyUrlunsplit]

/-- Helper: urlunsplit with a nonempty scheme and netloc and a slash-led
path reassembles scheme, colon, double slash, netloc and path. -/
theorem pyUrlunsplit_netloc (sch nl p : List Char) (hsch : sch ≠ []) (hnl : nl ≠ [])
    (hp : p.take 1 = ['/']) :
    pyUrlunsplit sch nl p [] [] = sch ++ ':' :: '/' :: '/' :: (nl ++ p) := by
  unfold pyUrlunsplit
  rw [if_pos (show (!nl.isEmpty ||
      !sch.isEmpty && usesNetloc.contains sch && decide (List.take 2 p ≠ ['/', '/'])) = true by
    simp [List.isEmpty_iff, hnl])]
  rw [if_neg (show ¬((!p.isEmpty && decide (List.take 1 p ≠ ['/'])) = true) by simp [hp])]
  simp [List.isEmpty_iff, hsch]

/-- Helper: slash-or-safe characters are plain URL characters. -/
theorem urlPlain_of_slash_or_safe (l : List Char)
    (h : ∀ c ∈ l, c = '/' ∨ safeChar c = true) : ∀ c ∈ l, urlPlainChar c = true := by
  intro c hc
  rcases h c hc with rfl | hs
  · decide
  · exact (safeChar_props c hs).2.2.2.2.2.2.2.2.2.1

/-- Helper: splitting a join of slash-free segments with an optional
trailing slash yields the segments with an optional empty field. -/
theorem pySplit_join_ptrail (psegs : List (List Char)) (ptrail : Bool) (hne : psegs ≠ [])
    (h : ∀ s ∈ psegs, ∀ c ∈ s, c ≠ '/') :
    pySplit '/' (joinSegs psegs ++ (if ptrail then ['/'] else [])) =
      psegs ++ (if ptrail then [([] : List Char)] else []) := by
  cases ptrail with
  | true =>
    rw [if_pos rfl, if_pos rfl, pySplit_concat_sep, pySplit_join psegs hne h]
  | false =>
    rw [if_neg Bool.false_ne_true, if_neg Bool.false_ne_true, List.append_nil,
      List.append_nil, pySplit_join psegs hne h]

/-- Helper: joining an empty segment onto a nonempty list prepends a
slash. -/
theorem joinSegs_nil_cons (l : List (List Char)) (hl : l ≠ []) :
    joinSegs ([] :: l) = '/' :: joinSegs l := by
  cases l with
  | nil => exact absurd rfl hl
  | cons x t => rfl

/-- Helper: the first two characters of a list led by a non-slash are
not a double slash. -/
theorem take2_ne_of_head (d : Char) (l : List Char) (hd : d ≠ '/') :
    ¬(List.take 2 (d :: l) = ['/', '/']) := by
  intro hcon
  rw [show List.take 2 (d :: l) = d :: List.take 1 l from rfl] at hcon
  injection hcon with h1 _
  exact hd h1

/-- Helper: the first two characters of a slash followed by a non-slash
are not a double slash. -/
theorem take2_ne_of_second (e : Char) (l : List Char) (he : e ≠ '/') :
    ¬(List.take 2 ('/' :: e :: l) = ['/', '/']) := by
  intro hcon
  rw [show List.take 2 ('/' :: e :: l) = ['/', e] from rfl] at hcon
  injection hcon with _ h2
  injection h2 with h3 _
  exact he h3

/-- C3 (amended): for structured inputs -- a base made of a head (empty,
a single slash, or an http/https origin), slash-joined safe segments and
any number of trailing slashes, and a path made of any number of leading
slashes, slash-joined safe segments and an optional trailing slash --
build_url returns the base head and segments, exactly one seam slash,
and the path segments with their trailing slash, both sides otherwise
unchanged. -/
theorem c3_url_join_amended (head : BaseHead) (bsegs : List (List Char))
    (btrail plead : Nat) (psegs : List (List Char)) (ptrail : Bool)
    (hb : ∀ s ∈ bsegs, segOK s = true)
    (hp : ∀ s ∈ psegs, segOK s = true)
    (hbe : bsegs = [] → head = BaseHead.plain)
    (hpe : psegs = [] → ptrail = false) :
    build_url
      (String.mk (headChars head ++ joinSegs bsegs ++ List.replicate btrail '/'))
      (String.mk (List.replicate plead '/' ++
        (joinSegs psegs ++ (if ptrail then ['/'] else [])))) =
      Except.ok (String.mk (headChars head ++ joinSegs bsegs ++
        '/' :: (joinSegs psegs ++ (if ptrail then ['/'] else [])))) := by
  have hrstrip : pyRstrip '/' (headChars head ++ joinSegs bsegs ++ List.replicate btrail '/') =
      headChars head ++ joinSegs bsegs := by
    rw [pyRstrip_append_replicate]
    cases bsegs with
    | nil =>
      rw [hbe rfl]
      rfl
    | cons b1 bs'' =>
      obtain ⟨ys, d, hj, hd⟩ := joinSegs_last_safe (b1 :: bs'') (by simp) hb
      rw [hj, show headChars head ++ (ys ++ [d]) = (headChars head ++ ys) ++ [d] from
        (List.append_assoc _ _ _).symm,
        pyRstrip_concat_ne _ d (safeChar_props d hd).2.2.2.1]
  have hlstrip : pyLstrip '/' (List.replicate plead '/' ++
      (joinSegs psegs ++ (if ptrail then ['/'] else []))) =
      joinSegs psegs ++ (if ptrail then ['/'] else []) := by
    rw [pyLstrip_replicate_append]
    cases psegs with
    | nil =>
      rw [hpe rfl]
      rfl
    | cons p1 ps' =>
      obtain ⟨d, l', hj, hd⟩ := joinSegs_head_safe p1 ps' hp
      rw [hj, show (d :: l') ++ (if ptrail then ['/'] else []) =
        d :: (l' ++ (if ptrail then ['/'] else [])) from rfl]
      rw [pyLstrip_eq_self _ (fun e he => by
        simp only [List.head?_cons, Option.some.injEq] at he
        subst he
        exact (safeChar_props d hd).2.2.2.1)]
  unfold build_url
  dsimp only
  rw [hrstrip, hlstrip]
  cases psegs with
  | nil =>
    rw [hpe rfl]
    rw [show joinSegs ([] : List (List Char)) ++
      (if (false : Bool) then ['/'] else []) = ([] : List Char) from rfl]
    rw [show pyUrljoin ((headChars head ++ joinSegs bsegs) ++ ['/']) [] =
        Except.ok ((headChars head ++ joinSegs bsegs) ++ ['/']) from by
      unfold pyUrljoin
      rw [if_neg (show ¬((((headChars head ++ joinSegs bsegs) ++ ['/']).isEmpty) = true) by
        simp), if_pos (show (([] : List Char).isEmpty) = true from rfl)]]
  | cons p1 ps' =>
    obtain ⟨dp, lp, hjp, hdp⟩ := joinSegs_head_safe p1 ps' hp
    have htrmem : ∀ c ∈ (if ptrail then ['/'] else ([] : List Char)), c = '/' := by
      cases ptrail <;> simp
    have hurl_chars : ∀ c ∈ joinSegs (p1 :: ps') ++ (if ptrail then ['/'] else []),
        c = '/' ∨ safeChar c = true := by
      intro c hc
      rcases List.mem_append.mp hc with hc | hc
      · exact joinSegs_chars _ hp c hc
      · exact Or.inl (htrmem c hc)
    have hup_plain : ∀ ds,
        pyUrlparse (joinSegs (p1 :: ps') ++ (if ptrail then ['/'] else [])) ds =
        .ok ⟨ds, [], joinSegs (p1 :: ps') ++ (if ptrail then ['/'] else []), [], [], []⟩ := by
      intro ds
      refine pyUrlparse_plain _ ds (urlPlain_of_slash_or_safe _ hurl_chars) ?_
      rw [hjp, show (dp :: lp) ++ (if ptrail then ['/'] else []) =
        dp :: (lp ++ (if ptrail then ['/'] else [])) from rfl]
      exact take2_ne_of_head dp _ (safeChar_props dp hdp).2.2.2.1
    have hurl_ne : joinSegs (p1 :: ps') ++ (if ptrail then ['/'] else []) ≠ [] := by
      rw [hjp]
      simp
    have hup_head : ¬(List.take 1 (joinSegs (p1 :: ps') ++
        (if ptrail then ['/'] else [])) = ['/']) := by
      rw [hjp, show (dp :: lp) ++ (if ptrail then ['/'] else []) =
        dp :: (lp ++ (if ptrail then ['/'] else [])) from rfl]
      intro hcon
      rw [show List.take 1 (dp :: (lp ++ (if ptrail then ['/'] else []))) = [dp] from rfl]
        at hcon
      injection hcon with h1 _
      exact (safeChar_props dp hdp).2.2.2.1 h1
    have hsplitu : pySplit '/' (joinSegs (p1 :: ps') ++ (if ptrail then ['/'] else [])) =
        (p1 :: ps') ++ (if ptrail then [([] : List Char)] else []) :=
      pySplit_join_ptrail _ ptrail (by simp) (segOK_no_slash _ hp)
    have hpsegs_ok : ∀ s ∈ p1 :: ps', s ≠ [] ∧ s ≠ ['.'] ∧ s ≠ ['.', '.'] := by
      intro s hs
      have h0 := segOK_props s (hp s hs)
      exact ⟨h0.1, h0.2.1, h0.2.2.1⟩
    have hjoin_tr : joinSegs ((p1 :: ps') ++ (if ptrail then [([] : List Char)] else [])) =
        joinSegs (p1 :: ps') ++ (if ptrail then ['/'] else []) :=
      joinSegs_ptrail _ ptrail (by simp)
    have htr_ne : (p1 :: ps') ++ (if ptrail then [([] : List Char)] else []) ≠ [] := by simp
    cases head with
    | plain =>
      cases bsegs with
      | nil =>
        rw [show ((headChars BaseHead.plain ++ joinSegs ([] : List (List Char))) ++ ['/'] :
          List Char) = ['/'] from rfl]
        have hbp : pyUrlparse ['/'] [] = .ok ⟨[], [], ['/'], [], [], []⟩ :=
          pyUrlparse_plain ['/'] [] (by decide) (by decide)
        have hcore := pyUrljoin_core ['/']
          (joinSegs (p1 :: ps') ++ (if ptrail then ['/'] else [])) [] [] ['/']
          (joinSegs (p1 :: ps') ++ (if ptrail then ['/'] else []))
          [[]] (p1 :: ps') ptrail (by simp) hurl_ne hbp (hup_plain []) (by decide) (by decide)
          (show pySplit '/' ['/'] = [[]] ++ [[]] from rfl) (by simp) (by simp)
          (by intro s hs; simp at hs; subst hs; exact ⟨by decide, by decide⟩)
          hsplitu (by simp) hpsegs_ok hurl_ne hup_head
        rw [hcore]
        dsimp only
        rw [pyUrlunsplit_plain]
        rw [show ([[]] ++ ((p1 :: ps') ++ (if ptrail then [([] : List Char)] else []))) =
          ([] : List Char) :: ((p1 :: ps') ++ (if ptrail then [([] : List Char)] else []))
          from rfl]
        rw [joinSegs_nil_cons _ htr_ne, hjoin_tr]
        simp [headChars, joinSegs]
      | cons b1 bs'' =>
        obtain ⟨eb, lb, hjb, heb⟩ := joinSegs_head_safe b1 bs'' hb
        have hbase_chars : ∀ c ∈ joinSegs (b1 :: bs'') ++ ['/'],
            c = '/' ∨ safeChar c = true := by
          intro c hc
          rcases List.mem_append.mp hc with hc | hc
          · exact joinSegs_chars _ hb c hc
          · exact Or.inl (by simpa using hc)
        have hbp : pyUrlparse (joinSegs (b1 :: bs'') ++ ['/']) [] =
            .ok ⟨[], [], joinSegs (b1 :: bs'') ++ ['/'], [], [], []⟩ := by
          refine pyUrlparse_plain _ [] (urlPlain_of_slash_or_safe _ hbase_chars) ?_
          rw [hjb, show (eb :: lb) ++ ['/'] = eb :: (lb ++ ['/']) from rfl]
          exact take2_ne_of_head eb _ (safeChar_props eb heb).2.2.2.1
        have hsplitb : pySplit '/' (joinSegs (b1 :: bs'') ++ ['/']) = (b1 :: bs'') ++ [[]] := by
          rw [pySplit_concat_sep, pySplit_join _ (by simp) (segOK_no_slash _ hb)]
        have hcore := pyUrljoin_core (joinSegs (b1 :: bs'') ++ ['/'])
          (joinSegs (p1 :: ps') ++ (if ptrail then ['/'] else [])) [] []
          (joinSegs (b1 :: bs'') ++ ['/'])
          (joinSegs (p1 :: ps') ++ (if ptrail then ['/'] else []))
          (b1 :: bs'') (p1 :: ps') ptrail
          (by rw [hjb]; simp) hurl_ne hbp (hup_plain []) (by decide) (by decide)
          hsplitb (by simp)
          (fun s hs => (segOK_props s (hb s (List.mem_cons_of_mem _ hs))).1)
          (fun s hs => ⟨(segOK_props s (hb s hs)).2.1, (segOK_props s (hb s hs)).2.2.1⟩)
          hsplitu (by simp) hpsegs_ok hurl_ne hup_head
        rw [show ((headChars BaseHead.plain ++ joinSegs (b1 :: bs'')) ++ ['/'] : List Char) =
          joinSegs (b1 :: bs'') ++ ['/'] from by simp [headChars]]
        rw [hcore]
        dsimp only
        rw [pyUrlunsplit_plain]
        rw [joinSegs_append (b1 :: bs'') _ (by simp) htr_ne, hjoin_tr]
        simp [headChars]
    | rooted =>
      have hbne : bsegs ≠ [] := fun h0 => BaseHead.noConfusion (hbe h0)
      cases bsegs with
      | nil => exact absurd rfl hbne
      | cons b1 bs'' =>
        obtain ⟨eb, lb, hjb, heb⟩ := joinSegs_head_safe b1 bs'' hb
        have hbase_eq : ((headChars BaseHead.rooted ++ joinSegs (b1 :: bs'')) ++ ['/'] :
            List Char) = '/' :: (joinSegs (b1 :: bs'') ++ ['/']) := by
          simp [headChars]
        have hbase_chars : ∀ c ∈ '/' :: (joinSegs (b1 :: bs'') ++ ['/']),
            c = '/' ∨ safeChar c = true := by
          intro c hc
          rcases List.mem_cons.mp hc with rfl | hc
          · exact Or.inl rfl
          · rcases List.mem_append.mp hc with hc | hc
            · exact joinSegs_chars _ hb c hc
            · exact Or.inl (by simpa using hc)
        have hbp : pyUrlparse ('/' :: (joinSegs (b1 :: bs'') ++ ['/'])) [] =
            .ok ⟨[], [], '/' :: (joinSegs (b1 :: bs'') ++ ['/']), [], [], []⟩ := by
          refine pyUrlparse_plain _ [] (urlPlain_of_slash_or_safe _ hbase_chars) ?_
          rw [hjb, show (eb :: lb) ++ ['/'] = eb :: (lb ++ ['/']) from rfl]
          exact take2_ne_of_second eb _ (safeChar_props eb heb).2.2.2.1
        have hsplitb : pySplit '/' ('/' :: (joinSegs (b1 :: bs'') ++ ['/'])) =
            (([] : List Char) :: (b1 :: bs'')) ++ [[]] := by
          rw [pySplit_cons_sep, pySplit_concat_sep,
            pySplit_join _ (by simp) (segOK_no_slash _ hb)]
          simp
        have hcore := pyUrljoin_core ('/' :: (joinSegs (b1 :: bs'') ++ ['/']))
          (joinSegs (p1 :: ps') ++ (if ptrail then ['/'] else [])) [] []
          ('/' :: (joinSegs (b1 :: bs'') ++ ['/']))
          (joinSegs (p1 :: ps') ++ (if ptrail then ['/'] else []))
          (([] : List Char) :: (b1 :: bs'')) (p1 :: ps') ptrail
          (by simp) hurl_ne hbp (hup_plain []) (by decide) (by decide)
          hsplitb (by simp)
          (fun s hs => (segOK_props s (hb s (by simpa using hs))).1)
          (by
            intro s hs
            rcases List.mem_cons.mp hs with rfl | hs
            · exact ⟨by decide, by decide⟩
            · exact ⟨(segOK_props s (hb s hs)).2.1, (segOK_props s (hb s hs)).2.2.1⟩)
          hsplitu (by simp) hpsegs_ok hurl_ne hup_head
        rw [hbase_eq, hcore]
        dsimp only
        rw [pyUrlunsplit_plain]
        rw [show ((([] : List Char) :: (b1 :: bs'')) ++
          ((p1 :: ps') ++ (if ptrail then [([] : List Char)] else []))) =
          ([] : List Char) :: ((b1 :: bs'') ++
            ((p1 :: ps') ++ (if ptrail then [([] : List Char)] else []))) from rfl]
        rw [joinSegs_nil_cons _ (by simp), joinSegs_append (b1 :: bs'') _ (by simp) htr_ne,
          hjoin_tr]
        simp [headChars]
    | http =>
      have hbne : bsegs ≠ [] := fun h0 => BaseHead.noConfusion (hbe h0)
      cases bsegs with
      | nil => exact absurd rfl hbne
      | cons b1 bs'' =>
        have hb1props := segOK_props b1 (hb b1 (by simp))
        cases bs'' with
        | nil =>
          have hbase_eq : ((headChars BaseHead.http ++ joinSegs [b1]) ++ ['/'] : List Char) =
              ("http://").data ++ (b1 ++ ['/']) := by
            simp [headChars, joinSegs]
          have hbp := pyUrlparse_scheme false b1 ['/'] hb1props.1 hb1props.2.2.2 rfl
            (by intro c hc; exact Or.inl (by simpa using hc))
          rw [show (if (false = true) then ("https://" : String) else "http://") =
            "http://" from rfl] at hbp
          rw [show (if (false = true) then ("https" : String) else "http") =
            "http" from rfl] at hbp
          have hcore := pyUrljoin_core (("http://").data ++ (b1 ++ ['/']))
            (joinSegs (p1 :: ps') ++ (if ptrail then ['/'] else []))
            ("http").data b1 ['/']
            (joinSegs (p1 :: ps') ++ (if ptrail then ['/'] else []))
            [[]] (p1 :: ps') ptrail
            (fun h0 => List.noConfusion h0) hurl_ne hbp (hup_plain _) (by decide) (by decide)
            (show pySplit '/' ['/'] = [[]] ++ [[]] from rfl) (by simp) (by simp)
            (by intro s hs; simp at hs; subst hs; exact ⟨by decide, by decide⟩)
            hsplitu (by simp) hpsegs_ok hurl_ne hup_head
          rw [hbase_eq, hcore]
          dsimp only
          rw [show ([[]] ++ ((p1 :: ps') ++ (if ptrail then [([] : List Char)] else []))) =
            ([] : List Char) :: ((p1 :: ps') ++ (if ptrail then [([] : List Char)] else []))
            from rfl]
          rw [joinSegs_nil_cons _ htr_ne, hjoin_tr]
          rw [pyUrlunsplit_netloc ("http").data b1
            ('/' :: (joinSegs (p1 :: ps') ++ (if ptrail then ['/'] else [])))
            (by decide) hb1props.1 rfl]
          rw [show (("http").data ++ ':' :: '/' :: '/' :: (b1 ++ '/' ::
            (joinSegs (p1 :: ps') ++ (if ptrail then ['/'] else []))) : List Char) =
            ("http://").data ++ (b1 ++ '/' ::
              (joinSegs (p1 :: ps') ++ (if ptrail then ['/'] else []))) from rfl]
          simp [headChars, joinSegs]
        | cons b2 bs''' =>
          have hjtail : joinSegs (b1 :: b2 :: bs''') = b1 ++ '/' :: joinSegs (b2 :: bs''') := rfl
          have hbase_eq : ((headChars BaseHead.http ++ joinSegs (b1 :: b2 :: bs''')) ++ ['/'] :
              List Char) =
              ("http://").data ++ (b1 ++ ('/' :: (joinSegs (b2 :: bs''') ++ ['/']))) := by
            rw [hjtail]
            simp [headChars]
          have hbtail : ∀ s ∈ b2 :: bs''', segOK s = true :=
            fun s hs => hb s (List.mem_cons_of_mem _ hs)
          have ht2chars : ∀ c ∈ '/' :: (joinSegs (b2 :: bs''') ++ ['/']),
              c = '/' ∨ safeChar c = true := by
            intro c hc
            rcases List.mem_cons.mp hc with rfl | hc
            · exact Or.inl rfl
            · rcases List.mem_append.mp hc with hc | hc
              · exact joinSegs_chars _ hbtail c hc
              · exact Or.inl (by simpa using hc)
          have hbp := pyUrlparse_scheme false b1 ('/' :: (joinSegs (b2 :: bs''') ++ ['/']))
            hb1props.1 hb1props.2.2.2 rfl ht2chars
          rw [show (if (false = true) then ("https://" : String) else "http://") =
            "http://" from rfl] at hbp
          rw [show (if (false = true) then ("https" : String) else "http") =
            "http" from rfl] at hbp
          have hsplitb : pySplit '/' ('/' :: (joinSegs (b2 :: bs''') ++ ['/'])) =
              (([] : List Char) :: (b2 :: bs''')) ++ [[]] := by
            rw [pySplit_cons_sep, pySplit_concat_sep,
              pySplit_join _ (by simp) (segOK_no_slash _ hbtail)]
            simp
          have hcore := pyUrljoin_core
            (("http://").data ++ (b1 ++ ('/' :: (joinSegs (b2 :: bs''') ++ ['/']))))
            (joinSegs (p1 :: ps') ++ (if ptrail then ['/'] else []))
            ("http").data b1 ('/' :: (joinSegs (b2 :: bs''') ++ ['/']))
            (joinSegs (p1 :: ps') ++ (if ptrail then ['/'] else []))
            (([] : List Char) :: (b2 :: bs''')) (p1 :: ps') ptrail
            (fun h0 => List.noConfusion h0) hurl_ne hbp (hup_plain _) (by decide) (by decide)
            hsplitb (by simp)
            (fun s hs => (segOK_props s (hbtail s (by simpa using hs))).1)
            (by
              intro s hs
              rcases List.mem_cons.mp hs with rfl | hs
              · exact ⟨by decide, by decide⟩
              · exact ⟨(segOK_props s (hbtail s hs)).2.1, (segOK_props s (hbtail s hs)).2.2.1⟩)
            hsplitu (by simp) hpsegs_ok hurl_ne hup_head
          rw [hbase_eq, hcore]
          dsimp only
          rw [show ((([] : List Char) :: (b2 :: bs''')) ++
            ((p1 :: ps') ++ (if ptrail then [([] : List Char)] else []))) =
            ([] : List Char) :: ((b2 :: bs''') ++
              ((p1 :: ps') ++ (if ptrail then [([] : List Char)] else []))) from rfl]
          rw [joinSegs_nil_cons _ (by simp),
            joinSegs_append (b2 :: bs''') _ (by simp) htr_ne, hjoin_tr]
          rw [pyUrlunsplit_netloc ("http").data b1
            ('/' :: (joinSegs (b2 :: bs''') ++ '/' ::
              (joinSegs (p1 :: ps') ++ (if ptrail then ['/'] else []))))
            (by decide) hb1props.1 rfl]
          rw [show (("http").data ++ ':' :: '/' :: '/' :: (b1 ++ '/' ::
            (joinSegs (b2 :: bs''') ++ '/' ::
              (joinSegs (p1 :: ps') ++ (if ptrail then ['/'] else [])))) : List Char) =
            ("http://").data ++ (b1 ++ '/' :: (joinSegs (b2 :: bs''') ++ '/' ::
              (joinSegs (p1 :: ps') ++ (if ptrail then ['/'] else [])))) from rfl]
          rw [hjtail]
          simp [headChars]
    | https =>
      have hbne : bsegs ≠ [] := fun h0 => BaseHead.noConfusion (hbe h0)
      cases bsegs with
      | nil => exact absurd rfl hbne
      | cons b1 bs'' =>
        have hb1props := segOK_props b1 (hb b1 (by simp))
        cases bs'' with
        | nil =>
          have hbase_eq : ((headChars BaseHead.https ++ joinSegs [b1]) ++ ['/'] : List Char) =
              ("https://").data ++ (b1 ++ ['/']) := by
            simp [headChars, joinSegs]
          have hbp := pyUrlparse_scheme true b1 ['/'] hb1props.1 hb1props.2.2.2 rfl
            (by intro c hc; exact Or.inl (by simpa using hc))
          rw [show (if (true = true) then ("https://" : String) else "http://") =
            "https://" from rfl] at hbp
          rw [show (if (true = true) then ("https" : String) else "http") =
            "https" from rfl] at hbp
          have hcore := pyUrljoin_core (("https://").data ++ (b1 ++ ['/']))
            (joinSegs (p1 :: ps') ++ (if ptrail then ['/'] else []))
            ("https").data b1 ['/']
            (joinSegs (p1 :: ps') ++ (if ptrail then ['/'] else []))
            [[]] (p1 :: ps') ptrail
            (fun h0 => List.noConfusion h0) hurl_ne hbp (hup_plain _) (by decide) (by decide)
            (show pySplit '/' ['/'] = [[]] ++ [[]] from rfl) (by simp) (by simp)
            (by intro s hs; simp at hs; subst hs; exact ⟨by decide, by decide⟩)
            hsplitu (by simp) hpsegs_ok hurl_ne hup_head
          rw [hbase_eq, hcore]
          dsimp only
          rw [show ([[]] ++ ((p1 :: ps') ++ (if ptrail then [([] : List Char)] else []))) =
            ([] : List Char) :: ((p1 :: ps') ++ (if ptrail then [([] : List Char)] else []))
            from rfl]
          rw [joinSegs_nil_cons _ htr_ne, hjoin_tr]
          rw [pyUrlunsplit_netloc ("https").data b1
            ('/' :: (joinSegs (p1 :: ps') ++ (if ptrail then ['/'] else [])))
            (by decide) hb1props.1 rfl]
          rw [show (("https").data ++ ':' :: '/' :: '/' :: (b1 ++ '/' ::
            (joinSegs (p1 :: ps') ++ (if ptrail then ['/'] else []))) : List Char) =
            ("https://").data ++ (b1 ++ '/' ::
              (joinSegs (p1 :: ps') ++ (if ptrail then ['/'] else []))) from rfl]
          simp [headChars, joinSegs]
        | cons b2 bs''' =>
          have hjtail : joinSegs (b1 :: b2 :: bs''') = b1 ++ '/' :: joinSegs (b2 :: bs''') := rfl
          have hbase_eq : ((headChars BaseHead.https ++ joinSegs (b1 :: b2 :: bs''')) ++ ['/'] :
              List Char) =
              ("https://").data ++ (b1 ++ ('/' :: (joinSegs (b2 :: bs''') ++ ['/']))) := by
            rw [hjtail]
            simp [headChars]
          have hbtail : ∀ s ∈ b2 :: bs''', segOK s = true :=
            fun s hs => hb s (List.mem_cons_of_mem _ hs)
          have ht2chars : ∀ c ∈ '/' :: (joinSegs (b2 :: bs''') ++ ['/']),
              c = '/' ∨ safeChar c = true := by
            intro c hc
            rcases List.mem_cons.mp hc with rfl | hc
            · exact Or.inl rfl
            · rcases List.mem_append.mp hc with hc | hc
              · exact joinSegs_chars _ hbtail c hc
              · exact Or.inl (by simpa using hc)
          have hbp := pyUrlparse_scheme true b1 ('/' :: (joinSegs (b2 :: bs''') ++ ['/']))
            hb1props.1 hb1props.2.2.2 rfl ht2chars
          rw [show (if (true = true) then ("https://" : String) else "http://") =
            "https://" from rfl] at hbp
          rw [show (if (true = true) then ("https" : String) else "http") =
            "https" from rfl] at hbp
          have hsplitb : pySplit '/' ('/' :: (joinSegs (b2 :: bs''') ++ ['/'])) =
              (([] : List Char) :: (b2 :: bs''')) ++ [[]] := by
            rw [pySplit_cons_sep, pySplit_concat_sep,
              pySplit_join _ (by simp) (segOK_no_slash _ hbtail)]
            simp
          have hcore := pyUrljoin_core
            (("https://").data ++ (b1 ++ ('/' :: (joinSegs (b2 :: bs''') ++ ['/']))))
            (joinSegs (p1 :: ps') ++ (if ptrail then ['/'] else []))
            ("https").data b1 ('/' :: (joinSegs (b2 :: bs''') ++ ['/']))
            (joinSegs (p1 :: ps') ++ (if ptrail then ['/'] else []))
            (([] : List Char) :: (b2 :: bs''')) (p1 :: ps') ptrail
            (fun h0 => List.noConfusion h0) hurl_ne hbp (hup_plain _) (by decide) (by decide)
            hsplitb (by simp)
            (fun s hs => (segOK_props s (hbtail s (by simpa using hs))).1)
            (by
              intro s hs
              rcases List.mem_cons.mp hs with rfl | hs
              · exact ⟨by decide, by decide⟩
              · exact ⟨(segOK_props s (hbtail s hs)).2.1, (segOK_props s (hbtail s hs)).2.2.1⟩)
            hsplitu (by simp) hpsegs_ok hurl_ne hup_head
          rw [hbase_eq, hcore]
          dsimp only
          rw [show ((([] : List Char) :: (b2 :: bs''')) ++
            ((p1 :: ps') ++ (if ptrail then [([] : List Char)] else []))) =
            ([] : List Char) :: ((b2 :: bs''') ++
              ((p1 :: ps') ++ (if ptrail then [([] : List Char)] else []))) from rfl]
          rw [joinSegs_nil_cons _ (by simp),
            joinSegs_append (b2 :: bs''') _ (by simp) htr_ne, hjoin_tr]
          rw [pyUrlunsplit_netloc ("https").data b1
            ('/' :: (joinSegs (b2 :: bs''') ++ '/' ::
              (joinSegs (p1 :: ps') ++ (if ptrail then ['/'] else []))))
            (by decide) hb1props.1 rfl]
          rw [show (("https").data ++ ':' :: '/' :: '/' :: (b1 ++ '/' ::
            (joinSegs (b2 :: bs''') ++ '/' ::
              (joinSegs (p1 :: ps') ++ (if ptrail then ['/'] else [])))) : List Char) =
            ("https://").data ++ (b1 ++ '/' :: (joinSegs (b2 :: bs''') ++ '/' ::
              (joinSegs (p1 :: ps') ++ (if ptrail then ['/'] else [])))) from rfl]
          rw [hjtail]
          simp [headChars]

/-- Witness for c3_url_join_amended at a concrete base and path. -/
theorem c3_url_join_amended_witness :
    build_url "https://www.bungie.net/Platform" "/Destiny2/Foo" =
      Except.ok "https://www.bungie.net/Platform/Destiny2/Foo" := by
  have h := c3_url_join_amended BaseHead.https
    [("www.bungie.net").data, ("Platform").data] 0 1 [("Destiny2").data, ("Foo").data] false
    (by decide) (by decide) (fun h0 => List.noConfusion h0) (fun h0 => List.noConfusion h0)
  exact h

/-- Helper: the throttle sleep of a _make_request call, for any
outcome. -/
theorem make_request_slept (st : ClientState) (t1 t2 : ℚ) (m ep : String)
    (ps : List (String × JSONValue)) (dt : Option JSONValue) (o : TransportOutcome) :
    (make_request st t1 t2 m ep ps dt o).slept =
      if t1 - st.last_request_time < st.min_time_between_requests then
        st.min_time_between_requests - (t1 - st.last_request_time)
      else 0 := rfl

/-- Helper: the dispatch moment of a _make_request call is the throttle
reading plus the sleep. -/
theorem make_request_dispatched_at (st : ClientState) (t1 t2 : ℚ) (m ep : String)
    (ps : List (String × JSONValue)) (dt : Option JSONValue) (o : TransportOutcome) :
    (make_request st t1 t2 m ep ps dt o).dispatched_at =
      t1 + (make_request st t1 t2 m ep ps dt o).slept := rfl

/-- Helper: when the transport returns a response, the new session
state is the old one with the last-request timestamp set to t2. -/
theorem make_request_response_state (st : ClientState) (t1 t2 : ℚ) (m ep : String)
    (ps : List (String × JSONValue)) (dt : Option JSONValue)
    (status : Nat) (headers : List (String × String)) (body : Envelope) (url : String)
    (hurl : build_url st.base_url ep = .ok url) :
    (make_request st t1 t2 m ep ps dt (.response status headers body)).state =
      { st with last_request_time := t2 } := by
  unfold make_request
  dsimp only
  rw [hurl]
  dsimp only
  split
  · split <;> rfl
  · split <;> rfl

/-- Helper: an exception raised by handle_bungie_response is a plain
BungieAPIException. -/
theorem handle_error_cls (d : Envelope) (e : BungieExc)
    (he : handle_bungie_response d = .error e) : e.cls = ExcClass.generic := by
  unfold handle_bungie_response at he
  split at he
  · injection he with h
    subst h
    rfl
  · exact Except.noConfusion he

/-- C4 counterexample: a transport response with status 429 whose
Retry-After header value does not parse as an integer makes
_make_request raise the ValueError escaping int(), not RateLimitError,
refuting the claim as stated for that response. -/
theorem c4_counterexample :
    raisedClass (make_request (BungieClient_init "key" 30) 0 0 "GET" "/Destiny2/Foo" [] none
        (TransportOutcome.response 429 [("Retry-After", "soon")] [])).result ≠
      some ExcClass.rateLimit ∧
    (make_request (BungieClient_init "key" 30) 0 0 "GET" "/Destiny2/Foo" [] none
        (TransportOutcome.response 429 [("Retry-After", "soon")] [])).result =
      Except.error (MakeRequestError.valueError
        ("invalid literal for int() with base 10: " ++ pyReprStr "soon")) :=
  ⟨by decide, rfl⟩

/-- C4 (amended): for every transport response with status 429 whose
Retry-After header is absent or parses as a Python integer,
_make_request raises RateLimitError whose message names the parsed
delay (30 when the header is absent) and which carries the raw
response; the call yields this single raised error, with no retry. -/
theorem c4_rate_limit (st : ClientState) (t1 t2 : ℚ) (m ep : String)
    (ps : List (String × JSONValue)) (dt : Option JSONValue)
    (headers : List (String × String)) (body : Envelope) (url : String) (ra : Int)
    (hurl : build_url st.base_url ep = .ok url)
    (hra : retryAfterValue headers = .ok ra) :
    (make_request st t1 t2 m ep ps dt (.response 429 headers body)).result =
      .error (.exc ⟨.rateLimit,
        "Rate limit exceeded. Try again after " ++ toString ra ++ " seconds.",
        none, some (.httpResponse 429 headers body)⟩) ∧
    (headersGet headers "Retry-After" = none → ra = 30) := by
  constructor
  · unfold make_request
    dsimp only
    rw [hurl]
    dsimp only
    rw [if_pos rfl, hra]
  · intro hnone
    unfold retryAfterValue at hra
    rw [hnone] at hra
    injection hra with h
    exact h.symm

/-- Witness for C4 at the spec examples: a Retry-After of 45 makes the
message name 45; an absent header makes it name 30. -/
theorem c4_rate_limit_witness :
    (make_request (BungieClient_init "key" 30) 0 0 "GET" "/Destiny2/Foo" [] none
        (TransportOutcome.response 429 [("Retry-After", "45")] [])).result =
      Except.error (MakeRequestError.exc ⟨ExcClass.rateLimit,
        "Rate limit exceeded. Try again after 45 seconds.",
        none, some (RawAttachment.httpResponse 429 [("Retry-After", "45")] [])⟩) ∧
    (make_request (BungieClient_init "key" 30) 0 0 "GET" "/Destiny2/Foo" [] none
        (TransportOutcome.response 429 [] [])).result =
      Except.error (MakeRequestError.exc ⟨ExcClass.rateLimit,
        "Rate limit exceeded. Try again after 30 seconds.",
        none, some (RawAttachment.httpResponse 429 [] [])⟩) :=
  ⟨(c4_rate_limit (BungieClient_init "key" 30) 0 0 "GET" "/Destiny2/Foo" [] none
      [("Retry-After", "45")] [] "https://www.bungie.net/Platform/Destiny2/Foo" 45 rfl rfl).1,
   (c4_rate_limit (BungieClient_init "key" 30) 0 0 "GET" "/Destiny2/Foo" [] none
      [] [] "https://www.bungie.net/Platform/Destiny2/Foo" 30 rfl rfl).1⟩

/-- C5: every transport response with status at least 400 and different
from 429 raises a plain BungieAPIException carrying the HTTP status
code and the raw response, and every transport-level failure raises a
plain BungieAPIException with a descriptive message and no code. -/
theorem c5_http_and_transport_errors (st : ClientState) (t1 t2 : ℚ) (m ep : String)
    (ps : List (String × JSONValue)) (dt : Option JSONValue)
    (status : Nat) (headers : List (String × String)) (body : Envelope) (url : String)
    (hurl : build_url st.base_url ep = .ok url)
    (h400 : 400 ≤ status) (h429 : status ≠ 429) :
    (make_request st t1 t2 m ep ps dt (.response status headers body)).result =
      .error (.exc ⟨.generic, "HTTP error occurred: " ++ httpStatusErrorStr status url,
        some (.num status), some (.httpResponse status headers body)⟩) ∧
    (∀ emsg, (make_request st t1 t2 m ep ps dt (.requestError emsg)).result =
      .error (.exc ⟨.generic, "Request error occurred: " ++ emsg, none, none⟩)) := by
  constructor
  · unfold make_request
    dsimp only
    rw [hurl]
    dsimp only
    rw [if_neg h429]
    have h2 : (!(200 ≤ status && status ≤ 299)) = true := by
      have h3 : ¬(status ≤ 299) := by omega
      simp [h3]
    rw [if_pos h2]
  · intro emsg
    unfold make_request
    dsimp only
    rw [hurl]

/-- Witness for C5 at a 404 response and a connection failure. -/
theorem c5_http_and_transport_errors_witness :
    (make_request (BungieClient_init "key" 30) 0 0 "GET" "/Destiny2/Foo" [] none
        (TransportOutcome.response 404 [] [])).result =
      Except.error (MakeRequestError.exc ⟨ExcClass.generic,
        "HTTP error occurred: " ++
          httpStatusErrorStr 404 "https://www.bungie.net/Platform/Destiny2/Foo",
        some (JSONValue.num 404), some (RawAttachment.httpResponse 404 [] [])⟩) ∧
    (make_request (BungieClient_init "key" 30) 0 0 "GET" "/Destiny2/Foo" [] none
        (TransportOutcome.requestError "Connection refused")).result =
      Except.error (MakeRequestError.exc ⟨ExcClass.generic,
        "Request error occurred: Connection refused", none, none⟩) :=
  ⟨(c5_http_and_transport_errors (BungieClient_init "key" 30) 0 0 "GET" "/Destiny2/Foo" [] none
      404 [] [] "https://www.bungie.net/Platform/Destiny2/Foo" rfl (by omega) (by omega)).1,
   (c5_http_and_transport_errors (BungieClient_init "key" 30) 0 0 "GET" "/Destiny2/Foo" [] none
      404 [] [] "https://www.bungie.net/Platform/Destiny2/Foo" rfl (by omega) (by omega)).2
     "Connection refused"⟩

/-- C6: once the transport call returns (any status, including error
statuses and error envelopes), _make_request records t2 as the
session last-request timestamp and changes no other session field. -/
theorem c6_timestamp_update (st : ClientState) (t1 t2 : ℚ) (m ep : String)
    (ps : List (String × JSONValue)) (dt : Option JSONValue)
    (status : Nat) (headers : List (String × String)) (body : Envelope) (url : String)
    (hurl : build_url st.base_url ep = .ok url) :
    (make_request st t1 t2 m ep ps dt (.response status headers body)).state =
      { st with last_request_time := t2 } ∧
    (make_request st t1 t2 m ep ps dt (.response status headers body)).state.api_key =
      st.api_key ∧
    (make_request st t1 t2 m ep ps dt (.response status headers body)).state.base_url =
      st.base_url ∧
    (make_request st t1 t2 m ep ps dt (.response status headers body)).state.timeout =
      st.timeout ∧
    (make_request st t1 t2 m ep ps dt (.response status headers body)).state.headers =
      st.headers ∧
    (make_request st t1 t2 m ep ps dt (.response status headers body)).state.last_request_time =
      t2 := by
  have h := make_request_response_state st t1 t2 m ep ps dt status headers body url hurl
  exact ⟨h, by rw [h], by rw [h], by rw [h], by rw [h], by rw [h]⟩

/-- Witness for C6: a 500 response still updates the timestamp and
leaves the configuration unchanged. -/
theorem c6_timestamp_update_witness :
    (make_request (BungieClient_init "key" 30) 1 7 "GET" "/Destiny2/Foo" [] none
        (TransportOutcome.response 500 [] [])).state =
      { BungieClient_init "key" 30 with last_request_time := 7 } ∧
    (make_request (BungieClient_init "key" 30) 1 7 "GET" "/Destiny2/Foo" [] none
        (TransportOutcome.response 500 [] [])).state.api_key = "key" :=
  ⟨(c6_timestamp_update (BungieClient_init "key" 30) 1 7 "GET" "/Destiny2/Foo" [] none
      500 [] [] "https://www.bungie.net/Platform/Destiny2/Foo" rfl).1,
   (c6_timestamp_update (BungieClient_init "key" 30) 1 7 "GET" "/Destiny2/Foo" [] none
      500 [] [] "https://www.bungie.net/Platform/Destiny2/Foo" rfl).2.1⟩

/-- C7: the throttle of a second call on the session sleeps exactly the
missing part of the 100 ms minimum interval (1/10 second, measured
from the recorded timestamp t2 of the first call), and the two
transport dispatches are at least 1/10 apart, given monotone clock
readings (t2 at or after the first dispatch, the second throttle
reading at or after t2). -/
theorem c7_throttle (st : ClientState) (t1 t2 t1' t2' : ℚ) (m ep m' ep' : String)
    (ps ps' : List (String × JSONValue)) (dt dt' : Option JSONValue)
    (status : Nat) (headers : List (String × String)) (body : Envelope)
    (o' : TransportOutcome) (url : String)
    (hmin : st.min_time_between_requests = 1/10)
    (hurl : build_url st.base_url ep = .ok url)
    (hdisp : (make_request st t1 t2 m ep ps dt (.response status headers body)).dispatched_at ≤ t2)
    ( _hmono : t2 ≤ t1') :
    ((make_request (make_request st t1 t2 m ep ps dt (.response status headers body)).state
        t1' t2' m' ep' ps' dt' o').slept =
      if t1' - t2 < 1/10 then 1/10 - (t1' - t2) else 0) ∧
    1/10 ≤ (make_request (make_request st t1 t2 m ep ps dt
          (.response status headers body)).state t1' t2' m' ep' ps' dt' o').dispatched_at -
        (make_request st t1 t2 m ep ps dt (.response status headers body)).dispatched_at := by
  have hstate := make_request_response_state st t1 t2 m ep ps dt status headers body url hurl
  have hslept :
      (make_request (make_request st t1 t2 m ep ps dt (.response status headers body)).state
        t1' t2' m' ep' ps' dt' o').slept =
      if t1' - t2 < 1/10 then 1/10 - (t1' - t2) else 0 := by
    rw [make_request_slept, hstate]
    dsimp only
    rw [hmin]
  refine ⟨hslept, ?_⟩
  rw [make_request_dispatched_at, hslept]
  by_cases hc : t1' - t2 < 1/10
  · rw [if_pos hc]
    linarith
  · rw [if_neg hc]
    rw [not_lt] at hc
    linarith

/-- Witness for C7: back-to-back calls at time 1; the second sleeps the
full tenth of a second and the dispatches are a tenth apart. -/
theorem c7_throttle_witness :
    ((make_request (make_request (BungieClient_init "key" 30) 1 1 "GET" "/Destiny2/Foo" [] none
        (TransportOutcome.response 200 [] demoOkEnvNoBody)).state 1 2 "GET" "/Destiny2/Foo"
        [] none (TransportOutcome.response 200 [] demoOkEnvNoBody)).slept = 1/10) ∧
    1/10 ≤ (make_request (make_request (BungieClient_init "key" 30) 1 1 "GET" "/Destiny2/Foo"
        [] none (TransportOutcome.response 200 [] demoOkEnvNoBody)).state 1 2 "GET"
        "/Destiny2/Foo" [] none
        (TransportOutcome.response 200 [] demoOkEnvNoBody)).dispatched_at -
      (make_request (BungieClient_init "key" 30) 1 1 "GET" "/Destiny2/Foo" [] none
        (TransportOutcome.response 200 [] demoOkEnvNoBody)).dispatched_at := by
  have hd : (make_request (BungieClient_init "key" 30) 1 1 "GET" "/Destiny2/Foo" [] none
      (TransportOutcome.response 200 [] demoOkEnvNoBody)).dispatched_at ≤ 1 := by
    rw [make_request_dispatched_at, make_request_slept]
    norm_num [BungieClient_init]
  have h := c7_throttle (BungieClient_init "key" 30) 1 1 1 2 "GET" "/Destiny2/Foo" "GET"
    "/Destiny2/Foo" [] [] none none 200 [] demoOkEnvNoBody
    (TransportOutcome.response 200 [] demoOkEnvNoBody)
    "https://www.bungie.net/Platform/Destiny2/Foo" rfl rfl hd (by norm_num)
  refine ⟨?_, h.2⟩
  rw [h.1]
  norm_num

/-- C8: search_destiny_player maps the platform name case-insensitively
(via its lowercase) through the fixed table xbox 1, psn 2, steam 3,
stadia 5, epic 6, sends absent, empty or unknown platforms to -1, and
requests /Destiny2/SearchDestinyPlayer/membershipType/displayName. -/
theorem c8_platform_mapping (display_name : String) (platform : Option String) (p : String)
    (hp : p ≠ "") :
    search_destiny_player_endpoint display_name platform =
      "/Destiny2/SearchDestinyPlayer/" ++ membership_type_for platform ++ "/" ++ display_name ∧
    membership_type_for none = "-1" ∧
    membership_type_for (some "") = "-1" ∧
    (membership_type_for (some p) =
      if asciiLower p = "xbox" then "1"
      else if asciiLower p = "psn" then "2"
      else if asciiLower p = "steam" then "3"
      else if asciiLower p = "stadia" then "5"
      else if asciiLower p = "epic" then "6"
      else "-1") ∧
    (∀ st t1 t2 o, search_destiny_player st t1 t2 display_name platform o =
      make_request st t1 t2 "GET" (search_destiny_player_endpoint display_name platform)
        [] none o) := by
  have hx : ∀ x : String,
      ((platform_map.find? (fun q => q.fst == x)).map Prod.snd).getD "-1" =
        if x = "xbox" then "1" else if x = "psn" then "2" else if x = "steam" then "3"
        else if x = "stadia" then "5" else if x = "epic" then "6" else "-1" := by
    intro x
    by_cases h1 : x = "xbox"
    · subst h1; rfl
    · rw [if_neg h1]
      by_cases h2 : x = "psn"
      · subst h2; rfl
      · rw [if_neg h2]
        by_cases h3 : x = "steam"
        · subst h3; rfl
        · rw [if_neg h3]
          by_cases h4 : x = "stadia"
          · subst h4; rfl
          · rw [if_neg h4]
            by_cases h5 : x = "epic"
            · subst h5; rfl
            · rw [if_neg h5]
              have e1 : (("xbox" : String) == x) = false :=
                beq_eq_false_iff_ne.mpr (fun h => h1 h.symm)
              have e2 : (("psn" : String) == x) = false :=
                beq_eq_false_iff_ne.mpr (fun h => h2 h.symm)
              have e3 : (("steam" : String) == x) = false :=
                beq_eq_false_iff_ne.mpr (fun h => h3 h.symm)
              have e4 : (("stadia" : String) == x) = false :=
                beq_eq_false_iff_ne.mpr (fun h => h4 h.symm)
              have e5 : (("epic" : String) == x) = false :=
                beq_eq_false_iff_ne.mpr (fun h => h5 h.symm)
              simp [platform_map, List.find?, e1, e2, e3, e4, e5]
  refine ⟨rfl, rfl, rfl, ?_, fun _ _ _ _ => rfl⟩
  show (if p ≠ "" then
      ((platform_map.find? (fun q => q.fst == asciiLower p)).map Prod.snd).getD "-1"
    else "-1") = _
  rw [if_pos hp]
  exact hx (asciiLower p)

/-- Witness for C8 at the spec example PSN and at an unknown
platform. -/
theorem c8_platform_mapping_witness :
    membership_type_for (some "PSN") = "2" ∧
    search_destiny_player_endpoint "Name#1234" (some "PSN") =
      "/Destiny2/SearchDestinyPlayer/2/Name#1234" ∧
    membership_type_for (some "dreamcast") = "-1" := by
  have h := c8_platform_mapping "Name#1234" (some "PSN") "PSN" (by decide)
  have h2 := c8_platform_mapping "N" (some "dreamcast") "dreamcast" (by decide)
  refine ⟨?_, ?_, ?_⟩
  · rw [h.2.2.2.1]; rfl
  · rw [h.1]; rfl
  · rw [h2.2.2.2.1]; rfl

/-- C9: no call path raises MaintenanceError: every exception raised by
a _make_request call (hence by search_destiny_player, get_profile and
get_activity_history, which delegate to it) or by the envelope
interpreter is the plain or the rate-limit class, never maintenance. -/
theorem c9_no_maintenance :
    (∀ (st : ClientState) (t1 t2 : ℚ) (m ep : String) (ps : List (String × JSONValue))
      (dt : Option JSONValue) (o : TransportOutcome) (e : BungieExc),
      (make_request st t1 t2 m ep ps dt o).result = .error (.exc e) →
        e.cls ≠ ExcClass.maintenance) ∧
    (∀ (d : Envelope) (e : BungieExc),
      handle_bungie_response d = .error e → e.cls ≠ ExcClass.maintenance) := by
  constructor
  · intro st t1 t2 m ep ps dt o e he
    unfold make_request at he
    dsimp only at he
    rcases hb : build_url st.base_url ep with eb | url <;> rw [hb] at he
    · injection he with h
      exact absurd h (by intro hh; cases hh)
    · cases o with
      | requestError msg =>
        dsimp only at he
        injection he with h
        injection h with h2
        subst h2
        exact fun hh => ExcClass.noConfusion hh
      | response status headers body =>
        dsimp only at he
        by_cases h429 : status = 429
        · rw [if_pos h429] at he
          rcases hr : retryAfterValue headers with em | ra <;> rw [hr] at he <;>
            dsimp only at he
          · injection he with h
            exact absurd h (by intro hh; cases hh)
          · injection he with h
            injection h with h2
            subst h2
            exact fun hh => ExcClass.noConfusion hh
        · rw [if_neg h429] at he
          by_cases h2xx : (!(200 ≤ status && status ≤ 299)) = true
          · rw [if_pos h2xx] at he
            dsimp only at he
            injection he with h
            injection h with h3
            subst h3
            exact fun hh => ExcClass.noConfusion hh
          · rw [if_neg h2xx] at he
            dsimp only at he
            rcases hh : handle_bungie_response body with eh | v <;> rw [hh] at he <;>
              dsimp only [Except.mapError] at he
            · injection he with h
              injection h with h3
              subst h3
              rw [handle_error_cls body eh hh]
              decide
            · exact Except.noConfusion he
  · intro d e he
    rw [handle_error_cls d e he]
    decide

/-- Witness for C9 at the error-envelope example: the raised class is
generic, not maintenance. -/
theorem c9_no_maintenance_witness :
    handle_bungie_response demoErrEnv = Except.error demoErrExc ∧
    demoErrExc.cls ≠ ExcClass.maintenance :=
  ⟨rfl, c9_no_maintenance.2 demoErrEnv demoErrExc rfl⟩

/-- C10: when the transport call itself raises, before any response is
obtained, the session state (in particular the last-request timestamp)
is exactly as before the call. -/
theorem c10_transport_failure_state (st : ClientState) (t1 t2 : ℚ) (m ep : String)
    (ps : List (String × JSONValue)) (dt : Option JSONValue) (emsg : String) :
    (make_request st t1 t2 m ep ps dt (.requestError emsg)).state = st ∧
    (make_request st t1 t2 m ep ps dt (.requestError emsg)).state.last_request_time =
      st.last_request_time := by
  have h : (make_request st t1 t2 m ep ps dt (.requestError emsg)).state = st := by
    unfold make_request
    dsimp only
    rcases hb : build_url st.base_url ep with eb | url <;> rfl
  exact ⟨h, by rw [h]⟩

end DestinyAudit
